import Mathlib

/-!
# Verification of the delete-package-versions action

A shallow embedding of `src/index.ts` and `src/main.ts` of the
`wherobots/delete-package-versions` repository: the orchestration core
(`deletePackageVersions`), input handling (`getInputs`, `getOwner`,
`validateInputField`, `run`) and the entry point (`main.ts`).

The remote registry is abstracted as a record of calls (`Api`), exactly as the
code consumes it through the octokit client; each call is recorded in an event
trace together with every log line the code emits, so that properties about
which calls are made, in which order, and what is logged can be stated and
proved.  Machine-level aspects that the claims do not touch (the secret
redaction side effect, the `padEnd(3)` padding of log headers, and octokit
pagination internals, which the code only observes as one flat list) are
elided; log events keep the header and message separately instead.
-/

namespace DeletePkg

/-- A package version as the code observes it: `{ id, name }`
(`version.id` / `version.name` in `src/index.ts`). -/
structure Version where
  id : Nat
  name : String
  deriving DecidableEq, Repr

/-- A JavaScript failure as the code discriminates it: either an octokit
`RequestError` (carrying an HTTP status and a message) or any other thrown
value, of which the code only ever reads the message. -/
inductive JsError where
  | request (status : Nat) (message : String)
  | other (message : String)
  deriving DecidableEq, Repr

instance exceptDecEq {ε α : Type} [DecidableEq ε] [DecidableEq α] :
    DecidableEq (Except ε α) := fun a b =>
  match a, b with
  | .ok x, .ok y =>
    if h : x = y then .isTrue (congrArg Except.ok h)
    else .isFalse (fun hc => h (Except.ok.inj hc))
  | .error x, .error y =>
    if h : x = y then .isTrue (congrArg Except.error h)
    else .isFalse (fun hc => h (Except.error.inj hc))
  | .ok _, .error _ => .isFalse (fun hc => Except.noConfusion hc)
  | .error _, .ok _ => .isFalse (fun hc => Except.noConfusion hc)

/-- The `message` property of a thrown error. -/
def JsError.msg : JsError → String
  | .request _ m => m
  | .other m => m

/-- Does the character list start with the pattern? -/
def charsLeadWith : List Char → List Char → Bool
  | _, [] => true
  | [], _ :: _ => false
  | c :: cs, p :: ps => (c == p) && charsLeadWith cs ps

/-- Does the pattern occur anywhere in the character list? -/
def charsInclude : List Char → List Char → Bool
  | [], pat => pat.isEmpty
  | c :: rest, pat => charsLeadWith (c :: rest) pat || charsInclude rest pat

/-- `String.prototype.includes`: substring containment. -/
def msgIncludes (s pat : String) : Bool :=
  charsInclude s.toList pat.toList

/-- The substring `src/index.ts` line 154 tests the error message for. -/
def lastVersionPattern : String := "last version of a package"

/-- Severity levels of the `log` helper in `src/index.ts`. -/
inductive LogLevel where
  | default | errorLevel | warn
  deriving DecidableEq, Repr

/-- One observable step of a run: a registry call (with the org-scoped flag
recording which of the two endpoint variants was used) or an emitted log
line (header and message kept separate; the `padEnd` is cosmetic). -/
inductive Event where
  | getUserCall (owner : String)
  | listCall (orgScoped : Bool) (owner pkg : String)
  | deleteVersionCall (orgScoped : Bool) (owner pkg : String) (id : Nat)
  | deletePackageCall (orgScoped : Bool) (owner pkg : String)
  | logged (level : LogLevel) (header message : String)
  deriving DecidableEq, Repr

/-- The registry as the code consumes it through octokit, over an abstract
registry state `σ` threaded through the calls.  The `orgScoped` flag
records which of the two endpoint objects (`...ForOrg` vs `...ForUser`)
is being invoked. -/
structure Api (σ : Type) where
  getUserType : String → σ → Except JsError String × σ
  listVersions : Bool → String → String → String → σ → Except JsError (List Version) × σ
  deleteVersion : Bool → String → String → String → Nat → σ → Except JsError Unit × σ
  deletePackage : Bool → String → String → String → σ → Except JsError Unit × σ

/-! Named transcriptions of the `log(...)` calls in `src/index.ts`, in
source order. -/

def ownerTypeLog (userType : String) : Event :=
  .logged .default "ℹ️" s!"Owner type is {userType}"

def pkgNotFoundWarnLog (pkg : String) : Event :=
  .logged .warn "😕" s!"Package {pkg} not found. Skipping..."

def listErrorLog (pkg : String) : Event :=
  .logged .errorLevel "🛑"
    ("An error occurred while listing package versions for \"" ++ pkg ++ "\"")

def noMatchingLog (pkg : String) : Event :=
  .logged .default "ℹ️" s!"Package {pkg} has no matching versions. Skipping..."

def deletingVersionLog (pkg : String) (v : Version) : Event :=
  .logged .default "🔄" s!"Deleting package version id={v.id} name={v.name} for package {pkg}"

def deletedVersionLog (pkg : String) (v : Version) : Event :=
  .logged .default "✅" s!"Deleted package version id={v.id} name={v.name} for package {pkg}"

def versionNotFoundLog (pkg : String) (v : Version) : Event :=
  .logged .default "😕" s!"Package version {v.id} does not exist for package {pkg}. Skipping..."

def lastVersionLog (pkg : String) : Event :=
  .logged .default "ℹ️"
    s!"Last version of package {pkg} cannot be deleted, will delete the package later."

def versionErrorLog (pkg : String) (v : Version) : Event :=
  .logged .errorLevel "🛑"
    s!"An error occurred while deleting package version id={v.id} name={v.name} for package {pkg}"

def deletingPackageLog (pkg : String) : Event :=
  .logged .default "🔄" s!"Deleting package {pkg} since there is only one version left to delete"

def deletedPackageLog (pkg : String) : Event :=
  .logged .default "✅" s!"Deleted package {pkg}"

def packageGoneLog (pkg : String) : Event :=
  .logged .default "😕" s!"Package {pkg} does not exist. Skipping..."

def packageErrorLog (pkg : String) : Event :=
  .logged .errorLevel "🛑" s!"An error occurred while deleting package {pkg}"

/-- The inner `for (const version of versionsToDelete)` loop of
`deletePackageVersions` (`src/index.ts` lines 122-177): attempts each
matched version in order, carrying the `shouldDeletePackage` flag, and
mirroring the catch block exactly: a `RequestError` with status 404 is
logged and skipped; a `RequestError` whose message contains
`"last version of a package"` sets the flag and continues; anything else
is logged as an error and re-thrown. -/
def deleteLoop (api : Api σ) (orgScoped : Bool) (owner pkgType pkg : String) :
    List Version → Bool → σ → Except JsError Bool × σ × List Event
  | [], shouldDeletePackage, s => (.ok shouldDeletePackage, s, [])
  | v :: rest, shouldDeletePackage, s =>
    match api.deleteVersion orgScoped owner pkgType pkg v.id s with
    | (.ok _, s₁) =>
      match deleteLoop api orgScoped owner pkgType pkg rest shouldDeletePackage s₁ with
      | (r, s₂, evs) =>
        (r, s₂, deletingVersionLog pkg v :: Event.deleteVersionCall orgScoped owner pkg v.id
          :: deletedVersionLog pkg v :: evs)
    | (.error e, s₁) =>
      match e with
      | .request status message =>
        if status == 404 then
          match deleteLoop api orgScoped owner pkgType pkg rest shouldDeletePackage s₁ with
          | (r, s₂, evs) =>
            (r, s₂, deletingVersionLog pkg v :: Event.deleteVersionCall orgScoped owner pkg v.id
              :: versionNotFoundLog pkg v :: evs)
        else if msgIncludes message lastVersionPattern then
          match deleteLoop api orgScoped owner pkgType pkg rest true s₁ with
          | (r, s₂, evs) =>
            (r, s₂, deletingVersionLog pkg v :: Event.deleteVersionCall orgScoped owner pkg v.id
              :: lastVersionLog pkg :: evs)
        else
          (.error (.request status message), s₁,
            [deletingVersionLog pkg v, Event.deleteVersionCall orgScoped owner pkg v.id,
              versionErrorLog pkg v])
      | .other message =>
        (.error (.other message), s₁,
          [deletingVersionLog pkg v, Event.deleteVersionCall orgScoped owner pkg v.id,
            versionErrorLog pkg v])

/-- The `versionsToDelete` computation (`src/index.ts` lines 113-115): the
enumerated versions whose `name` appears in the requested version list, in
enumeration order. -/
def matchedVersions (versions : List String) (allVersions : List Version) : List Version :=
  allVersions.filter (fun version => versions.contains version.name)

/-- One iteration of the outer `for (const pkg of packages)` loop of
`deletePackageVersions` (`src/index.ts` lines 72-208): list the versions
(404 → warn and skip the package, other failure → re-throw), filter them by
the requested version names, delete each match through `deleteLoop`, and, if
the last-version flag was set, delete the whole package (404 → skip, other
failure → re-throw). -/
def processPackage (api : Api σ) (orgScoped : Bool) (owner pkgType : String)
    (versions : List String) (pkg : String) (s : σ) :
    Except JsError Unit × σ × List Event :=
  match api.listVersions orgScoped owner pkgType pkg s with
  | (.error e, s₁) =>
    match e with
    | .request st m =>
      if st == 404 then
        (.ok (), s₁, [Event.listCall orgScoped owner pkg, pkgNotFoundWarnLog pkg])
      else
        (.error (.request st m), s₁, [Event.listCall orgScoped owner pkg, listErrorLog pkg])
    | .other m =>
      (.error (.other m), s₁, [Event.listCall orgScoped owner pkg, listErrorLog pkg])
  | (.ok allVersions, s₁) =>
    let versionsToDelete := matchedVersions versions allVersions
    if versionsToDelete.length == 0 then
      (.ok (), s₁, [Event.listCall orgScoped owner pkg, noMatchingLog pkg])
    else
      match deleteLoop api orgScoped owner pkgType pkg versionsToDelete false s₁ with
      | (.error e, s₂, evs) => (.error e, s₂, Event.listCall orgScoped owner pkg :: evs)
      | (.ok shouldDeletePackage, s₂, evs) =>
        if shouldDeletePackage then
          match api.deletePackage orgScoped owner pkgType pkg s₂ with
          | (.ok _, s₃) =>
            (.ok (), s₃, Event.listCall orgScoped owner pkg :: evs ++
              [deletingPackageLog pkg, Event.deletePackageCall orgScoped owner pkg,
                deletedPackageLog pkg])
          | (.error e, s₃) =>
            match e with
            | .request st m =>
              if st == 404 then
                (.ok (), s₃, Event.listCall orgScoped owner pkg :: evs ++
                  [deletingPackageLog pkg, Event.deletePackageCall orgScoped owner pkg,
                    packageGoneLog pkg])
              else
                (.error (.request st m), s₃, Event.listCall orgScoped owner pkg :: evs ++
                  [deletingPackageLog pkg, Event.deletePackageCall orgScoped owner pkg,
                    packageErrorLog pkg])
            | .other m =>
              (.error (.other m), s₃, Event.listCall orgScoped owner pkg :: evs ++
                [deletingPackageLog pkg, Event.deletePackageCall orgScoped owner pkg,
                  packageErrorLog pkg])
        else
          (.ok (), s₂, Event.listCall orgScoped owner pkg :: evs)

/-- The outer loop over `packages`, sequentially, aborting on the first
propagated error. -/
def processPackages (api : Api σ) (orgScoped : Bool) (owner pkgType : String)
    (versions : List String) : List String → σ → Except JsError Unit × σ × List Event
  | [], s => (.ok (), s, [])
  | pkg :: rest, s =>
    match processPackage api orgScoped owner pkgType versions pkg s with
    | (.error e, s₁, evs) => (.error e, s₁, evs)
    | (.ok _, s₁, evs) =>
      match processPackages api orgScoped owner pkgType versions rest s₁ with
      | (r, s₂, evs₂) => (r, s₂, evs ++ evs₂)

/-- `deletePackageVersions` (`src/index.ts` lines 51-209): resolve the owner
type once with `users.getByUsername` (an uncaught failure propagates), then
process every package with the endpoint variant selected by
`userType === "Organization"`. -/
def deletePackageVersions (api : Api σ) (owner pkgType : String)
    (packages versions : List String) (s : σ) : Except JsError Unit × σ × List Event :=
  match api.getUserType owner s with
  | (.error e, s₁) => (.error e, s₁, [Event.getUserCall owner])
  | (.ok userType, s₁) =>
    match processPackages api (userType == "Organization") owner pkgType versions packages s₁ with
    | (r, s₂, evs) =>
      (r, s₂, Event.getUserCall owner :: ownerTypeLog userType :: evs)

/-! ## Input handling (`getInputs`, `getOwner`, `validateInputField`, `run`, `main.ts`) -/

/-- The raw action inputs as `@actions/core.getInput` delivers them: a missing
input is the empty string.  `contextOwner` stands for `context.repo.owner`. -/
structure RawInputs where
  github_token : String
  package_type : String
  packages : String
  versions : String
  owner : String
  contextOwner : String
  deriving DecidableEq, Repr

/-- The `WorkflowInput` record consumed by `run`.  `packages` and `versions`
are `Option`s because `run` guards them with `!= null`: the interface types
are non-nullable, but the code comments that the inputs may have been
"provided directly as environment variables", so a null is representable
at this boundary. -/
structure WorkflowInput where
  githubToken : String
  owner : String
  packageType : String
  packages : Option (List String)
  versions : Option (List String)
  deriving DecidableEq, Repr

/-- JavaScript string truthiness, as used by `getOwner` and
`validateInputField`: the empty string is falsy. -/
def truthy (s : String) : Bool := s != ""

/-- `getOwner` (`src/index.ts` lines 215-224). -/
def getOwner (raw : RawInputs) : String :=
  if truthy raw.owner then raw.owner else raw.contextOwner

/-- `String.prototype.split` at every occurrence of a one-character
separator, over character lists: the split of the empty string is `[""]`. -/
def splitChars (sep : Char) : List Char → List (List Char)
  | [] => [[]]
  | c :: rest =>
    if c == sep then [] :: splitChars sep rest
    else
      match splitChars sep rest with
      | [] => [[c]]
      | g :: gs => (c :: g) :: gs

/-- `input.split(",")` as `getInputs` uses it. -/
def splitCommas (s : String) : List String :=
  (splitChars (Char.ofNat 44) s.toList).map (fun cs => String.mk cs)

/-- `getInputs` (`src/index.ts` lines 235-251): the comma splits of the
`packages`/`versions` inputs (never null on this path). -/
def getInputs (raw : RawInputs) : WorkflowInput :=
  { githubToken := raw.github_token
    packageType := raw.package_type
    packages := some (splitCommas raw.packages)
    versions := some (splitCommas raw.versions)
    owner := getOwner raw }

/-- Outcome of `run`: either `process.exit(code)` fired inside
`validateInputField`, or the promise of `run` settled (fulfilled or rejected). -/
inductive RunResult (σ : Type) where
  | exited (code : Nat) (events : List Event)
  | finished (result : Except JsError Unit) (s : σ) (events : List Event)
  deriving Repr

/-- `validateInputField` (`src/index.ts` lines 253-258): on a falsy argument,
log at error level and exit with status 1. -/
def validateInputField (isValid : Bool) (invalidMessage : String) : Option Event :=
  if !isValid then some (Event.logged .errorLevel "🛑" invalidMessage) else none

/-- `run` (`src/index.ts` lines 263-283): the five `validateInputField` checks
in source order (string truthiness for `packageType`/`githubToken`/`owner`,
`!= null` for `packages`/`versions`), the four startup log lines, then
`deletePackageVersions`.  The `setSecret` side effect is elided. -/
def runAction (api : Api σ) (inputs : WorkflowInput) (s : σ) : RunResult σ :=
  match validateInputField (truthy inputs.packageType) "no tag name provided as an input." with
  | some ev => .exited 1 [ev]
  | none =>
  match validateInputField (truthy inputs.githubToken) "no Github token provided" with
  | some ev => .exited 1 [ev]
  | none =>
  match validateInputField (truthy inputs.owner) "An invalid owner was provided!" with
  | some ev => .exited 1 [ev]
  | none =>
  match validateInputField inputs.packages.isSome "Invalid packages provided!" with
  | some ev => .exited 1 [ev]
  | none =>
  match validateInputField inputs.versions.isSome "Invalid versions provided!" with
  | some ev => .exited 1 [ev]
  | none =>
    let packages := inputs.packages.getD []
    let versions := inputs.versions.getD []
    let startup : List Event :=
      [ Event.logged .default "📕" ("given owner is \"" ++ inputs.owner ++ "\""),
        Event.logged .default "📕" ("given packageType is \"" ++ inputs.packageType ++ "\""),
        Event.logged .default "📕"
          ("given packages are \"" ++ String.intercalate "," packages ++ "\""),
        Event.logged .default "🏷" ("given versions are \"" ++ String.intercalate "," versions ++ "\"") ]
    match deletePackageVersions api inputs.owner inputs.packageType packages versions s with
    | (r, s₁, evs) => .finished r s₁ (startup ++ evs)

/-- The final process outcome, as `src/main.ts` produces it:
`run(getInputs()).catch((reason) => setFailed(reason))` — an early
`process.exit` keeps its code, a rejected promise becomes a failure carrying
the message of the error, a fulfilled promise is success (exit 0). -/
inductive ProcessOutcome where
  | exitedEarly (code : Nat)
  | failed (message : String)
  | succeeded
  deriving DecidableEq, Repr

/-- How `src/main.ts` turns a settled `run` into a process outcome:
`run(...).catch((reason) => setFailed(reason))` — a rejection becomes a
failure carrying the message of the error, fulfilment is success (exit 0). -/
def runOutcomeOf : RunResult σ → ProcessOutcome
  | .exited code _ => .exitedEarly code
  | .finished (.error e) _ _ => .failed e.msg
  | .finished (.ok _) _ _ => .succeeded

/-- The composition in `src/main.ts`: `run(getInputs())` with the rejection
handler. -/
def mainOutcome (api : Api σ) (raw : RawInputs) (s : σ) : ProcessOutcome :=
  runOutcomeOf (runAction api (getInputs raw) s)

/-! ## Trace observations and error classification -/

/-- The per-version deletion calls in a trace, as `(package, version id)`
pairs, in order. -/
def versionDeleteCalls (evs : List Event) : List (String × Nat) :=
  evs.filterMap fun e =>
    match e with
    | .deleteVersionCall _ _ pkg id => some (pkg, id)
    | _ => none

/-- The package-level deletion calls in a trace, in order. -/
def packageDeleteCalls (evs : List Event) : List String :=
  evs.filterMap fun e =>
    match e with
    | .deletePackageCall _ _ pkg => some pkg
    | _ => none

/-- The version-listing calls in a trace, in order. -/
def listingCalls (evs : List Event) : List String :=
  evs.filterMap fun e =>
    match e with
    | .listCall _ _ pkg => some pkg
    | _ => none

/-- Is this event a registry call (as opposed to a log line)? -/
def Event.isRegistryCall : Event → Bool
  | .getUserCall _ => true
  | .listCall _ _ _ => true
  | .deleteVersionCall _ _ _ _ => true
  | .deletePackageCall _ _ _ => true
  | .logged _ _ _ => false

/-- The endpoint variant (org-scoped?) a call event used, `none` for logs. -/
def Event.callScope : Event → Option Bool
  | .getUserCall _ => none
  | .listCall b _ _ => some b
  | .deleteVersionCall b _ _ _ => some b
  | .deletePackageCall b _ _ => some b
  | .logged _ _ _ => none

/-- Is there a warning-level log line in the trace? -/
def hasWarning (evs : List Event) : Bool :=
  evs.any fun e =>
    match e with
    | .logged .warn _ _ => true
    | _ => false

/-- NotFound, as the catch blocks recognise it: a `RequestError` with HTTP
status 404. -/
def isNotFound : JsError → Bool
  | .request status _ => status == 404
  | .other _ => false

/-- LastVersionRefusal, as the per-version catch block recognises it: a
`RequestError` that is not a 404 whose message contains
`"last version of a package"` (the 404 test comes first in the code, so a
404 carrying the substring is still treated as NotFound). -/
def isLastVersionRefusal : JsError → Bool
  | .request status message => status != 404 && msgIncludes message lastVersionPattern
  | .other _ => false

/-- A per-version deletion outcome the loop recovers from (anything else
aborts the run). -/
def recoveredDelete (r : Except JsError Unit) : Bool :=
  match r with
  | .ok _ => true
  | .error e => isNotFound e || isLastVersionRefusal e

/-- Did this per-version deletion outcome set the `shouldDeletePackage`
flag? -/
def refusalResult (r : Except JsError Unit) : Bool :=
  match r with
  | .ok _ => false
  | .error e => isLastVersionRefusal e

/-! ## A stateless (pure) registry oracle

Most claims are about how the orchestration reacts to given registry
responses; for those a deterministic, state-independent oracle is enough. -/

/-- A stateless registry oracle: fixed responses per call shape. -/
structure PureApi where
  userType : Except JsError String
  list : String → Except JsError (List Version)
  delVer : String → Nat → Except JsError Unit
  delPkg : String → Except JsError Unit

/-- A `PureApi` as an `Api Unit`. -/
def PureApi.toApi (p : PureApi) : Api Unit :=
  { getUserType := fun _ s => (p.userType, s)
    listVersions := fun _ _ _ pkg s => (p.list pkg, s)
    deleteVersion := fun _ _ _ pkg id s => (p.delVer pkg id, s)
    deletePackage := fun _ _ _ pkg s => (p.delPkg pkg, s) }

/-! ## An honest registry model

Modelled from the spec: the registry capability interface of §6 ("Registry
capabilities consumed"), which is an external collaborator the repository
does not implement.  It is needed only to state idempotence (running the
orchestrator twice over the state the first run leaves behind): a package is
a named list of versions; listing a missing package is NotFound; deleting a
version removes it unless it is the sole remaining one, which is refused
with the registry message `"Cannot delete the last version of a package"`;
deleting a package removes it wholesale. -/
structure Registry where
  packages : String → Option (List Version)

/-- Look up the version list of a package by name. -/
def Registry.lookup (r : Registry) (pkg : String) : Option (List Version) :=
  r.packages pkg

/-- Remove every version with the given id from a package. -/
def Registry.removeVersion (r : Registry) (pkg : String) (id : Nat) : Registry :=
  ⟨fun q => if q = pkg then (r.packages q).map (fun vs => vs.filter (fun v => v.id != id))
            else r.packages q⟩

/-- Remove a package wholesale. -/
def Registry.removePackage (r : Registry) (pkg : String) : Registry :=
  ⟨fun q => if q = pkg then none else r.packages q⟩

/-- Modelled from the spec: the honest registry as an `Api Registry` (owner
kind fixed to `kind`). -/
def registryApi (kind : String) : Api Registry :=
  { getUserType := fun _ r => (.ok kind, r)
    listVersions := fun _ _ _ pkg r =>
      match r.lookup pkg with
      | none => (.error (.request 404 "Not Found"), r)
      | some vs => (.ok vs, r)
    deleteVersion := fun _ _ _ pkg id r =>
      match r.lookup pkg with
      | none => (.error (.request 404 "Not Found"), r)
      | some vs =>
        if vs.any (fun v => v.id == id) then
          if vs.length == 1 then
            (.error (.request 400 "Cannot delete the last version of a package"), r)
          else
            (.ok (), r.removeVersion pkg id)
        else (.error (.request 404 "Not Found"), r)
    deletePackage := fun _ _ _ pkg r =>
      match r.lookup pkg with
      | none => (.error (.request 404 "Not Found"), r)
      | some _ => (.ok (), r.removePackage pkg) }

/-- Does every call event in the trace use the given endpoint variant? -/
def scopeOk (org : Bool) (e : Event) : Bool :=
  match e.callScope with
  | none => true
  | some b => b == org

@[simp] theorem versionDeleteCalls_nil : versionDeleteCalls [] = [] := rfl

@[simp] theorem versionDeleteCalls_cons_logged :
    versionDeleteCalls (.logged lvl h m :: evs) = versionDeleteCalls evs := rfl

@[simp] theorem versionDeleteCalls_cons_getUser :
    versionDeleteCalls (.getUserCall o :: evs) = versionDeleteCalls evs := rfl

@[simp] theorem versionDeleteCalls_cons_list :
    versionDeleteCalls (.listCall b o pkg :: evs) = versionDeleteCalls evs := rfl

@[simp] theorem versionDeleteCalls_cons_delVer :
    versionDeleteCalls (.deleteVersionCall b o pkg i :: evs)
      = (pkg, i) :: versionDeleteCalls evs := rfl

@[simp] theorem versionDeleteCalls_cons_delPkg :
    versionDeleteCalls (.deletePackageCall b o pkg :: evs) = versionDeleteCalls evs := rfl

@[simp] theorem versionDeleteCalls_append :
    versionDeleteCalls (evs₁ ++ evs₂) = versionDeleteCalls evs₁ ++ versionDeleteCalls evs₂ :=
  List.filterMap_append _ _ _

@[simp] theorem packageDeleteCalls_nil : packageDeleteCalls [] = [] := rfl

@[simp] theorem packageDeleteCalls_cons_logged :
    packageDeleteCalls (.logged lvl h m :: evs) = packageDeleteCalls evs := rfl

@[simp] theorem packageDeleteCalls_cons_getUser :
    packageDeleteCalls (.getUserCall o :: evs) = packageDeleteCalls evs := rfl

@[simp] theorem packageDeleteCalls_cons_list :
    packageDeleteCalls (.listCall b o pkg :: evs) = packageDeleteCalls evs := rfl

@[simp] theorem packageDeleteCalls_cons_delVer :
    packageDeleteCalls (.deleteVersionCall b o pkg i :: evs) = packageDeleteCalls evs := rfl

@[simp] theorem packageDeleteCalls_cons_delPkg :
    packageDeleteCalls (.deletePackageCall b o pkg :: evs)
      = pkg :: packageDeleteCalls evs := rfl

@[simp] theorem packageDeleteCalls_append :
    packageDeleteCalls (evs₁ ++ evs₂) = packageDeleteCalls evs₁ ++ packageDeleteCalls evs₂ :=
  List.filterMap_append _ _ _

@[simp] theorem listingCalls_nil : listingCalls [] = [] := rfl

@[simp] theorem listingCalls_cons_logged :
    listingCalls (.logged lvl h m :: evs) = listingCalls evs := rfl

@[simp] theorem listingCalls_cons_getUser :
    listingCalls (.getUserCall o :: evs) = listingCalls evs := rfl

@[simp] theorem listingCalls_cons_list :
    listingCalls (.listCall b o pkg :: evs) = pkg :: listingCalls evs := rfl

@[simp] theorem listingCalls_cons_delVer :
    listingCalls (.deleteVersionCall b o pkg i :: evs) = listingCalls evs := rfl

@[simp] theorem listingCalls_cons_delPkg :
    listingCalls (.deletePackageCall b o pkg :: evs) = listingCalls evs := rfl

@[simp] theorem listingCalls_append :
    listingCalls (evs₁ ++ evs₂) = listingCalls evs₁ ++ listingCalls evs₂ :=
  List.filterMap_append _ _ _

/-! ### Branch equations for `deleteLoop` -/

theorem deleteLoop_cons_ok {api : Api σ} {org : Bool} {owner pkgType pkg : String}
    {v : Version} {rest : List Version} {flag : Bool} {s s₁ s₂ : σ} {u : Unit}
    {r : Except JsError Bool} {evs : List Event}
    (hd : api.deleteVersion org owner pkgType pkg v.id s = (.ok u, s₁))
    (hrun : deleteLoop api org owner pkgType pkg rest flag s₁ = (r, s₂, evs)) :
    deleteLoop api org owner pkgType pkg (v :: rest) flag s
      = (r, s₂, deletingVersionLog pkg v :: Event.deleteVersionCall org owner pkg v.id
          :: deletedVersionLog pkg v :: evs) := by
  simp only [deleteLoop, hd, hrun]

theorem deleteLoop_cons_notFound {api : Api σ} {org : Bool} {owner pkgType pkg : String}
    {v : Version} {rest : List Version} {flag : Bool} {s s₁ s₂ : σ} {st : Nat} {m : String}
    {r : Except JsError Bool} {evs : List Event}
    (hd : api.deleteVersion org owner pkgType pkg v.id s = (.error (.request st m), s₁))
    (h404 : (st == 404) = true)
    (hrun : deleteLoop api org owner pkgType pkg rest flag s₁ = (r, s₂, evs)) :
    deleteLoop api org owner pkgType pkg (v :: rest) flag s
      = (r, s₂, deletingVersionLog pkg v :: Event.deleteVersionCall org owner pkg v.id
          :: versionNotFoundLog pkg v :: evs) := by
  simp only [deleteLoop, hd, h404, if_true, hrun]

theorem deleteLoop_cons_refusal {api : Api σ} {org : Bool} {owner pkgType pkg : String}
    {v : Version} {rest : List Version} {flag : Bool} {s s₁ s₂ : σ} {st : Nat} {m : String}
    {r : Except JsError Bool} {evs : List Event}
    (hd : api.deleteVersion org owner pkgType pkg v.id s = (.error (.request st m), s₁))
    (h404 : (st == 404) = false)
    (hm : msgIncludes m lastVersionPattern = true)
    (hrun : deleteLoop api org owner pkgType pkg rest true s₁ = (r, s₂, evs)) :
    deleteLoop api org owner pkgType pkg (v :: rest) flag s
      = (r, s₂, deletingVersionLog pkg v :: Event.deleteVersionCall org owner pkg v.id
          :: lastVersionLog pkg :: evs) := by
  simp only [deleteLoop, hd, h404, hm, if_true, if_false, Bool.false_eq_true, hrun]

theorem deleteLoop_cons_fatalRequest {api : Api σ} {org : Bool} {owner pkgType pkg : String}
    {v : Version} {rest : List Version} {flag : Bool} {s s₁ : σ} {st : Nat} {m : String}
    (hd : api.deleteVersion org owner pkgType pkg v.id s = (.error (.request st m), s₁))
    (h404 : (st == 404) = false)
    (hm : msgIncludes m lastVersionPattern = false) :
    deleteLoop api org owner pkgType pkg (v :: rest) flag s
      = (.error (.request st m), s₁,
          [deletingVersionLog pkg v, Event.deleteVersionCall org owner pkg v.id,
            versionErrorLog pkg v]) := by
  simp only [deleteLoop, hd, h404, hm, if_false, Bool.false_eq_true]

theorem deleteLoop_cons_fatalOther {api : Api σ} {org : Bool} {owner pkgType pkg : String}
    {v : Version} {rest : List Version} {flag : Bool} {s s₁ : σ} {m : String}
    (hd : api.deleteVersion org owner pkgType pkg v.id s = (.error (.other m), s₁)) :
    deleteLoop api org owner pkgType pkg (v :: rest) flag s
      = (.error (.other m), s₁,
          [deletingVersionLog pkg v, Event.deleteVersionCall org owner pkg v.id,
            versionErrorLog pkg v]) := by
  simp only [deleteLoop, hd]

/-- If every deletion outcome the loop will see is one its catch block
recovers from (success, NotFound, or LastVersionRefusal), the loop completes
normally, makes exactly one per-version deletion call per matched version in
list order and no other registry call, stays on the given endpoint variant,
and finishes with the `shouldDeletePackage` flag set iff it started set or
some outcome was a last-version refusal. -/
theorem deleteLoop_recovered (p : PureApi) (org : Bool) (owner pkgType pkg : String)
    (toDelete : List Version) (flag : Bool)
    (h : ∀ v ∈ toDelete, recoveredDelete (p.delVer pkg v.id) = true) :
    ∃ evs,
      deleteLoop p.toApi org owner pkgType pkg toDelete flag ()
        = (.ok (flag || toDelete.any fun v => refusalResult (p.delVer pkg v.id)), (), evs)
      ∧ versionDeleteCalls evs = toDelete.map (fun v => (pkg, v.id))
      ∧ packageDeleteCalls evs = []
      ∧ listingCalls evs = []
      ∧ evs.all (scopeOk org) = true := by
  induction toDelete generalizing flag with
  | nil => exact ⟨[], by simp [deleteLoop], rfl, rfl, rfl, rfl⟩
  | cons v rest ih =>
    have hv : recoveredDelete (p.delVer pkg v.id) = true := h v (List.mem_cons_self _ _)
    have hrest : ∀ w ∈ rest, recoveredDelete (p.delVer pkg w.id) = true :=
      fun w hw => h w (List.mem_cons_of_mem _ hw)
    cases hd : p.delVer pkg v.id with
    | ok u =>
      obtain ⟨evs, hrun, h1, h2, h3, h4⟩ := ih flag hrest
      have hd' : p.toApi.deleteVersion org owner pkgType pkg v.id () = (.ok u, ()) := by
        simp [PureApi.toApi, hd]
      refine ⟨deletingVersionLog pkg v :: Event.deleteVersionCall org owner pkg v.id
        :: deletedVersionLog pkg v :: evs, ?_, ?_, ?_, ?_, ?_⟩
      · rw [deleteLoop_cons_ok hd' hrun]
        simp only [List.any_cons, hd, refusalResult, Bool.false_or]
      · simp [deletingVersionLog, deletedVersionLog, h1]
      · simp [deletingVersionLog, deletedVersionLog, h2]
      · simp [deletingVersionLog, deletedVersionLog, h3]
      · simp [deletingVersionLog, deletedVersionLog, scopeOk, Event.callScope, h4]
    | error e =>
      cases e with
      | request st m =>
        cases h404 : st == 404 with
        | true =>
          obtain ⟨evs, hrun, h1, h2, h3, h4⟩ := ih flag hrest
          have hd' : p.toApi.deleteVersion org owner pkgType pkg v.id ()
              = (.error (.request st m), ()) := by
            simp [PureApi.toApi, hd]
          have hrr : refusalResult (Except.error (JsError.request st m) : Except JsError Unit)
              = false := by
            simp only [refusalResult, isLastVersionRefusal, bne, h404, Bool.not_true,
              Bool.false_and]
          refine ⟨deletingVersionLog pkg v :: Event.deleteVersionCall org owner pkg v.id
            :: versionNotFoundLog pkg v :: evs, ?_, ?_, ?_, ?_, ?_⟩
          · rw [deleteLoop_cons_notFound hd' h404 hrun]
            simp only [List.any_cons, hd, hrr, Bool.false_or]
          · simp [deletingVersionLog, versionNotFoundLog, h1]
          · simp [deletingVersionLog, versionNotFoundLog, h2]
          · simp [deletingVersionLog, versionNotFoundLog, h3]
          · simp [deletingVersionLog, versionNotFoundLog, scopeOk, Event.callScope, h4]
        | false =>
          have hm : msgIncludes m lastVersionPattern = true := by
            have := hv
            simp only [recoveredDelete, hd, isNotFound, isLastVersionRefusal, h404, bne,
              Bool.not_false, Bool.true_and, Bool.false_or] at this
            exact this
          obtain ⟨evs, hrun, h1, h2, h3, h4⟩ := ih true hrest
          have hd' : p.toApi.deleteVersion org owner pkgType pkg v.id ()
              = (.error (.request st m), ()) := by
            simp [PureApi.toApi, hd]
          have hrr : refusalResult (Except.error (JsError.request st m) : Except JsError Unit)
              = true := by
            simp only [refusalResult, isLastVersionRefusal, bne, h404, Bool.not_false,
              Bool.true_and, hm]
          refine ⟨deletingVersionLog pkg v :: Event.deleteVersionCall org owner pkg v.id
            :: lastVersionLog pkg :: evs, ?_, ?_, ?_, ?_, ?_⟩
          · rw [deleteLoop_cons_refusal hd' h404 hm hrun]
            simp only [List.any_cons, hd, hrr, Bool.true_or, Bool.or_true]
          · simp [deletingVersionLog, lastVersionLog, h1]
          · simp [deletingVersionLog, lastVersionLog, h2]
          · simp [deletingVersionLog, lastVersionLog, h3]
          · simp [deletingVersionLog, lastVersionLog, scopeOk, Event.callScope, h4]
      | other m =>
        exfalso
        simp only [recoveredDelete, hd, isNotFound, isLastVersionRefusal, Bool.or_self] at hv
        exact Bool.false_ne_true hv

/-! ### Branch equations for `processPackage` -/

theorem processPackage_list_notFound {api : Api σ} {org : Bool}
    {owner pkgType pkg : String} {versions : List String} {s s₁ : σ} {st : Nat} {m : String}
    (hl : api.listVersions org owner pkgType pkg s = (.error (.request st m), s₁))
    (h404 : (st == 404) = true) :
    processPackage api org owner pkgType versions pkg s
      = (.ok (), s₁, [Event.listCall org owner pkg, pkgNotFoundWarnLog pkg]) := by
  simp only [processPackage, hl, h404, if_true]

theorem processPackage_list_fatalRequest {api : Api σ} {org : Bool}
    {owner pkgType pkg : String} {versions : List String} {s s₁ : σ} {st : Nat} {m : String}
    (hl : api.listVersions org owner pkgType pkg s = (.error (.request st m), s₁))
    (h404 : (st == 404) = false) :
    processPackage api org owner pkgType versions pkg s
      = (.error (.request st m), s₁, [Event.listCall org owner pkg, listErrorLog pkg]) := by
  simp only [processPackage, hl, h404, if_false, Bool.false_eq_true]

theorem processPackage_list_fatalOther {api : Api σ} {org : Bool}
    {owner pkgType pkg : String} {versions : List String} {s s₁ : σ} {m : String}
    (hl : api.listVersions org owner pkgType pkg s = (.error (.other m), s₁)) :
    processPackage api org owner pkgType versions pkg s
      = (.error (.other m), s₁, [Event.listCall org owner pkg, listErrorLog pkg]) := by
  simp only [processPackage, hl]

theorem processPackage_noMatch {api : Api σ} {org : Bool}
    {owner pkgType pkg : String} {versions : List String} {s s₁ : σ} {vs : List Version}
    (hl : api.listVersions org owner pkgType pkg s = (.ok vs, s₁))
    (hnil : matchedVersions versions vs = []) :
    processPackage api org owner pkgType versions pkg s
      = (.ok (), s₁, [Event.listCall org owner pkg, noMatchingLog pkg]) := by
  simp [processPackage, hl, hnil]

theorem processPackage_loopFatal {api : Api σ} {org : Bool}
    {owner pkgType pkg : String} {versions : List String} {s s₁ s₂ : σ} {vs : List Version}
    {e : JsError} {evs : List Event}
    (hl : api.listVersions org owner pkgType pkg s = (.ok vs, s₁))
    (hne : ((matchedVersions versions vs).length == 0) = false)
    (hloop : deleteLoop api org owner pkgType pkg (matchedVersions versions vs) false s₁
      = (.error e, s₂, evs)) :
    processPackage api org owner pkgType versions pkg s
      = (.error e, s₂, Event.listCall org owner pkg :: evs) := by
  simp only [processPackage, hl, hne, if_false, Bool.false_eq_true, hloop]

theorem processPackage_loopOk_noFlag {api : Api σ} {org : Bool}
    {owner pkgType pkg : String} {versions : List String} {s s₁ s₂ : σ} {vs : List Version}
    {evs : List Event}
    (hl : api.listVersions org owner pkgType pkg s = (.ok vs, s₁))
    (hne : ((matchedVersions versions vs).length == 0) = false)
    (hloop : deleteLoop api org owner pkgType pkg (matchedVersions versions vs) false s₁
      = (.ok false, s₂, evs)) :
    processPackage api org owner pkgType versions pkg s
      = (.ok (), s₂, Event.listCall org owner pkg :: evs) := by
  simp only [processPackage, hl, hne, if_false, Bool.false_eq_true, hloop]

theorem processPackage_flag_pkgOk {api : Api σ} {org : Bool}
    {owner pkgType pkg : String} {versions : List String} {s s₁ s₂ s₃ : σ} {vs : List Version}
    {evs : List Event} {u : Unit}
    (hl : api.listVersions org owner pkgType pkg s = (.ok vs, s₁))
    (hne : ((matchedVersions versions vs).length == 0) = false)
    (hloop : deleteLoop api org owner pkgType pkg (matchedVersions versions vs) false s₁
      = (.ok true, s₂, evs))
    (hp : api.deletePackage org owner pkgType pkg s₂ = (.ok u, s₃)) :
    processPackage api org owner pkgType versions pkg s
      = (.ok (), s₃, Event.listCall org owner pkg :: evs ++
          [deletingPackageLog pkg, Event.deletePackageCall org owner pkg,
            deletedPackageLog pkg]) := by
  simp only [processPackage, hl, hne, if_false, if_true, Bool.false_eq_true, hloop, hp]

theorem processPackage_flag_pkgNotFound {api : Api σ} {org : Bool}
    {owner pkgType pkg : String} {versions : List String} {s s₁ s₂ s₃ : σ} {vs : List Version}
    {evs : List Event} {st : Nat} {m : String}
    (hl : api.listVersions org owner pkgType pkg s = (.ok vs, s₁))
    (hne : ((matchedVersions versions vs).length == 0) = false)
    (hloop : deleteLoop api org owner pkgType pkg (matchedVersions versions vs) false s₁
      = (.ok true, s₂, evs))
    (hp : api.deletePackage org owner pkgType pkg s₂ = (.error (.request st m), s₃))
    (h404 : (st == 404) = true) :
    processPackage api org owner pkgType versions pkg s
      = (.ok (), s₃, Event.listCall org owner pkg :: evs ++
          [deletingPackageLog pkg, Event.deletePackageCall org owner pkg,
            packageGoneLog pkg]) := by
  simp only [processPackage, hl, hne, if_false, if_true, Bool.false_eq_true, hloop, hp, h404]

theorem processPackage_flag_pkgFatalRequest {api : Api σ} {org : Bool}
    {owner pkgType pkg : String} {versions : List String} {s s₁ s₂ s₃ : σ} {vs : List Version}
    {evs : List Event} {st : Nat} {m : String}
    (hl : api.listVersions org owner pkgType pkg s = (.ok vs, s₁))
    (hne : ((matchedVersions versions vs).length == 0) = false)
    (hloop : deleteLoop api org owner pkgType pkg (matchedVersions versions vs) false s₁
      = (.ok true, s₂, evs))
    (hp : api.deletePackage org owner pkgType pkg s₂ = (.error (.request st m), s₃))
    (h404 : (st == 404) = false) :
    processPackage api org owner pkgType versions pkg s
      = (.error (.request st m), s₃, Event.listCall org owner pkg :: evs ++
          [deletingPackageLog pkg, Event.deletePackageCall org owner pkg,
            packageErrorLog pkg]) := by
  simp only [processPackage, hl, hne, if_false, if_true, Bool.false_eq_true, hloop, hp, h404]

theorem processPackage_flag_pkgFatalOther {api : Api σ} {org : Bool}
    {owner pkgType pkg : String} {versions : List String} {s s₁ s₂ s₃ : σ} {vs : List Version}
    {evs : List Event} {m : String}
    (hl : api.listVersions org owner pkgType pkg s = (.ok vs, s₁))
    (hne : ((matchedVersions versions vs).length == 0) = false)
    (hloop : deleteLoop api org owner pkgType pkg (matchedVersions versions vs) false s₁
      = (.ok true, s₂, evs))
    (hp : api.deletePackage org owner pkgType pkg s₂ = (.error (.other m), s₃)) :
    processPackage api org owner pkgType versions pkg s
      = (.error (.other m), s₃, Event.listCall org owner pkg :: evs ++
          [deletingPackageLog pkg, Event.deletePackageCall org owner pkg,
            packageErrorLog pkg]) := by
  simp only [processPackage, hl, hne, if_false, if_true, Bool.false_eq_true, hloop, hp]

/-! ### Branch equations for `processPackages` and `deletePackageVersions` -/

theorem processPackages_cons_ok {api : Api σ} {org : Bool}
    {owner pkgType pkg : String} {versions packages : List String} {s s₁ s₂ : σ}
    {evs evs₂ : List Event} {r : Except JsError Unit} {u : Unit}
    (h : processPackage api org owner pkgType versions pkg s = (.ok u, s₁, evs))
    (hrest : processPackages api org owner pkgType versions packages s₁ = (r, s₂, evs₂)) :
    processPackages api org owner pkgType versions (pkg :: packages) s
      = (r, s₂, evs ++ evs₂) := by
  simp only [processPackages, h, hrest]

theorem processPackages_cons_fatal {api : Api σ} {org : Bool}
    {owner pkgType pkg : String} {versions packages : List String} {s s₁ : σ}
    {evs : List Event} {e : JsError}
    (h : processPackage api org owner pkgType versions pkg s = (.error e, s₁, evs)) :
    processPackages api org owner pkgType versions (pkg :: packages) s
      = (.error e, s₁, evs) := by
  simp only [processPackages, h]

theorem deletePackageVersions_userFatal {api : Api σ} {owner pkgType : String}
    {packages versions : List String} {s s₁ : σ} {e : JsError}
    (h : api.getUserType owner s = (.error e, s₁)) :
    deletePackageVersions api owner pkgType packages versions s
      = (.error e, s₁, [Event.getUserCall owner]) := by
  simp only [deletePackageVersions, h]

theorem deletePackageVersions_userOk {api : Api σ} {owner pkgType userType : String}
    {packages versions : List String} {s s₁ s₂ : σ} {evs : List Event}
    {r : Except JsError Unit}
    (h : api.getUserType owner s = (.ok userType, s₁))
    (hrun : processPackages api (userType == "Organization") owner pkgType versions packages s₁
      = (r, s₂, evs)) :
    deletePackageVersions api owner pkgType packages versions s
      = (r, s₂, Event.getUserCall owner :: ownerTypeLog userType :: evs) := by
  simp only [deletePackageVersions, h, hrun]

/-- A package-level deletion outcome the package-level catch block recovers
from (only success or NotFound: unlike the per-version catch, a refusal-shaped
message would propagate here). -/
def recoveredPkgDelete (r : Except JsError Unit) : Bool :=
  match r with
  | .ok _ => true
  | .error e => isNotFound e

/-- The matched versions a stateless oracle yields for a package (empty when
listing fails). -/
def matchedOf (p : PureApi) (versions : List String) (pkg : String) : List Version :=
  match p.list pkg with
  | .ok vs => matchedVersions versions vs
  | .error _ => []

/-- Does the processing of `pkg` under the stateless oracle set the
`shouldDeletePackage` flag? -/
def pkgFlagged (p : PureApi) (versions : List String) (pkg : String) : Bool :=
  (matchedOf p versions pkg).any (fun v => refusalResult (p.delVer pkg v.id))

/-- Every outcome the processing of `pkg` can encounter under the stateless
oracle is recovered: the listing succeeds or is NotFound, every matched
deletion outcome is recovered, and the package-level deletion (if reached)
succeeds or is NotFound. -/
def pkgRecovered (p : PureApi) (versions : List String) (pkg : String) : Bool :=
  (match p.list pkg with
   | .ok vs => (matchedVersions versions vs).all (fun v => recoveredDelete (p.delVer pkg v.id))
   | .error e => isNotFound e)
  && recoveredPkgDelete (p.delPkg pkg)

/-- Characterisation of the processing of one package under a stateless oracle when
the listing succeeds, every matched deletion outcome is recovered and the
package-level deletion (if reached) is recovered: the package completes
normally, its trace is the listing call followed by a version phase and then a
package-deletion phase, the version phase contains exactly one deletion call
per matched version in order, and the package phase contains exactly one
package-level deletion call iff some version outcome was a last-version
refusal. -/
theorem processPackage_recovered (p : PureApi) (org : Bool) (owner pkgType pkg : String)
    (versions : List String) (vs : List Version)
    (hl : p.list pkg = .ok vs)
    (hrec : ∀ v ∈ matchedVersions versions vs, recoveredDelete (p.delVer pkg v.id) = true)
    (hpkg : recoveredPkgDelete (p.delPkg pkg) = true) :
    ∃ evs₁ evs₂,
      processPackage p.toApi org owner pkgType versions pkg ()
        = (.ok (), (), Event.listCall org owner pkg :: evs₁ ++ evs₂)
      ∧ versionDeleteCalls evs₁ = (matchedVersions versions vs).map (fun v => (pkg, v.id))
      ∧ packageDeleteCalls evs₁ = []
      ∧ versionDeleteCalls evs₂ = []
      ∧ packageDeleteCalls evs₂
          = (if (matchedVersions versions vs).any (fun v => refusalResult (p.delVer pkg v.id))
             then [pkg] else [])
      ∧ listingCalls evs₁ = []
      ∧ listingCalls evs₂ = []
      ∧ (evs₁ ++ evs₂).all (scopeOk org) = true := by
  have hl' : p.toApi.listVersions org owner pkgType pkg () = (.ok vs, ()) := by
    simp [PureApi.toApi, hl]
  by_cases hmat : matchedVersions versions vs = []
  · refine ⟨[noMatchingLog pkg], [], ?_, ?_, ?_, ?_, ?_, ?_, ?_, ?_⟩
    · simpa using processPackage_noMatch hl' hmat
    · simp [noMatchingLog, hmat]
    · simp [noMatchingLog]
    · simp
    · simp [hmat]
    · simp [noMatchingLog]
    · simp
    · simp [noMatchingLog, scopeOk, Event.callScope]
  · have hne : ((matchedVersions versions vs).length == 0) = false := by
      simp [List.length_eq_zero, hmat]
    obtain ⟨evsL, hloop, l1, l2, l3, l4⟩ :=
      deleteLoop_recovered p org owner pkgType pkg (matchedVersions versions vs) false hrec
    rw [Bool.false_or] at hloop
    cases hF : (matchedVersions versions vs).any (fun v => refusalResult (p.delVer pkg v.id)) with
    | false =>
      rw [hF] at hloop
      refine ⟨evsL, [], ?_, l1, l2, ?_, ?_, l3, ?_, ?_⟩
      · simpa using processPackage_loopOk_noFlag hl' hne hloop
      · simp
      · simp [hF]
      · simp
      · simpa using l4
    | true =>
      rw [hF] at hloop
      cases hp : p.delPkg pkg with
      | ok u =>
        have hp' : p.toApi.deletePackage org owner pkgType pkg () = (.ok u, ()) := by
          simp [PureApi.toApi, hp]
        refine ⟨evsL,
          [deletingPackageLog pkg, Event.deletePackageCall org owner pkg,
            deletedPackageLog pkg], ?_, l1, l2, ?_, ?_, l3, ?_, ?_⟩
        · simpa using processPackage_flag_pkgOk hl' hne hloop hp'
        · simp [deletingPackageLog, deletedPackageLog]
        · simp [hF, deletingPackageLog, deletedPackageLog]
        · simp [deletingPackageLog, deletedPackageLog]
        · simp [deletingPackageLog, deletedPackageLog, scopeOk, Event.callScope, l4]
      | error e =>
        cases e with
        | request st m =>
          have h404 : (st == 404) = true := by
            simpa [recoveredPkgDelete, hp, isNotFound] using hpkg
          have hp' : p.toApi.deletePackage org owner pkgType pkg ()
              = (.error (.request st m), ()) := by
            simp [PureApi.toApi, hp]
          refine ⟨evsL,
            [deletingPackageLog pkg, Event.deletePackageCall org owner pkg,
              packageGoneLog pkg], ?_, l1, l2, ?_, ?_, l3, ?_, ?_⟩
          · simpa using processPackage_flag_pkgNotFound hl' hne hloop hp' h404
          · simp [deletingPackageLog, packageGoneLog]
          · simp [hF, deletingPackageLog, packageGoneLog]
          · simp [deletingPackageLog, packageGoneLog]
          · simp [deletingPackageLog, packageGoneLog, scopeOk, Event.callScope, l4]
        | other m =>
          exfalso
          simp [recoveredPkgDelete, hp, isNotFound] at hpkg

/-- Characterisation of the outer package loop under a stateless oracle when
the outcomes of every requested package are recovered: the loop completes
normally, issues exactly one listing call per package in the supplied order,
exactly one deletion call per matched version of each package (grouped by
package, in supplied/enumeration order), and one package-level deletion call
for exactly the flagged packages. -/
theorem processPackages_recovered (p : PureApi) (org : Bool) (owner pkgType : String)
    (versions : List String) (packages : List String)
    (h : packages.all (pkgRecovered p versions) = true) :
    ∃ evs,
      processPackages p.toApi org owner pkgType versions packages ()
        = (.ok (), (), evs)
      ∧ listingCalls evs = packages
      ∧ versionDeleteCalls evs
          = packages.flatMap (fun pkg => (matchedOf p versions pkg).map (fun v => (pkg, v.id)))
      ∧ packageDeleteCalls evs = packages.filter (pkgFlagged p versions)
      ∧ evs.all (scopeOk org) = true := by
  induction packages with
  | nil => exact ⟨[], rfl, rfl, rfl, rfl, rfl⟩
  | cons pkg rest ih =>
    rw [List.all_cons, Bool.and_eq_true] at h
    obtain ⟨hhead, hrest⟩ := h
    obtain ⟨evs₂, hrun₂, g1, g2, g3, g4⟩ := ih hrest
    rw [pkgRecovered, Bool.and_eq_true] at hhead
    obtain ⟨hlist, hpkgdel⟩ := hhead
    cases hl : p.list pkg with
    | ok vs =>
      rw [hl] at hlist
      have hrec : ∀ v ∈ matchedVersions versions vs,
          recoveredDelete (p.delVer pkg v.id) = true := by
        simpa [List.all_eq_true] using hlist
      obtain ⟨e₁, e₂, hp, a1, a2, a3, a4, a5, a6, a7⟩ :=
        processPackage_recovered p org owner pkgType pkg versions vs hl hrec hpkgdel
      refine ⟨(Event.listCall org owner pkg :: e₁ ++ e₂) ++ evs₂, ?_, ?_, ?_, ?_, ?_⟩
      · exact processPackages_cons_ok hp hrun₂
      · simp [g1, a5, a6]
      · simp [a1, a3, g2, matchedOf, hl]
      · rw [List.filter_cons]
        simp only [pkgFlagged, matchedOf, hl]
        cases hc : (matchedVersions versions vs).any
            (fun v => refusalResult (p.delVer pkg v.id)) with
        | false => simp [a2, a4, g3, hc]
        | true => simp [a2, a4, g3, hc]
      · have a8 := a7
        rw [List.all_append, Bool.and_eq_true] at a8
        simp only [List.cons_append, List.all_cons, List.all_append, Bool.and_eq_true]
        exact ⟨by simp [scopeOk, Event.callScope], ⟨a8.1, a8.2⟩, g4⟩
    | error e =>
      rw [hl] at hlist
      cases e with
      | request st m =>
        have h404 : (st == 404) = true := by simpa [isNotFound] using hlist
        have hl2 : p.toApi.listVersions org owner pkgType pkg ()
            = (.error (.request st m), ()) := by
          simp [PureApi.toApi, hl]
        have hp := @processPackage_list_notFound _ _ _ _ _ _ versions _ _ _ _ hl2 h404
        refine ⟨[Event.listCall org owner pkg, pkgNotFoundWarnLog pkg] ++ evs₂,
          ?_, ?_, ?_, ?_, ?_⟩
        · exact processPackages_cons_ok hp hrun₂
        · simp [g1, pkgNotFoundWarnLog]
        · simp [g2, matchedOf, hl, pkgNotFoundWarnLog]
        · simp [g3, List.filter_cons, pkgFlagged, matchedOf, hl, pkgNotFoundWarnLog]
        · simp [g4, pkgNotFoundWarnLog, scopeOk, Event.callScope]
      | other m => simp [isNotFound] at hlist

/-- Characterisation of a whole run under a stateless oracle when the owner
lookup succeeds and the outcomes of every requested package are recovered. -/
theorem deletePackageVersions_recovered (p : PureApi) (owner pkgType userType : String)
    (versions packages : List String)
    (hu : p.userType = .ok userType)
    (h : packages.all (pkgRecovered p versions) = true) :
    ∃ evs,
      deletePackageVersions p.toApi owner pkgType packages versions ()
        = (.ok (), (), Event.getUserCall owner :: ownerTypeLog userType :: evs)
      ∧ listingCalls evs = packages
      ∧ versionDeleteCalls evs
          = packages.flatMap (fun pkg => (matchedOf p versions pkg).map (fun v => (pkg, v.id)))
      ∧ packageDeleteCalls evs = packages.filter (pkgFlagged p versions)
      ∧ evs.all (scopeOk (userType == "Organization")) = true := by
  obtain ⟨evs, hrun, g1, g2, g3, g4⟩ :=
    processPackages_recovered p (userType == "Organization") owner pkgType versions packages h
  have hu2 : p.toApi.getUserType owner () = (.ok userType, ()) := by
    simp [PureApi.toApi, hu]
  exact ⟨evs, deletePackageVersions_userOk hu2 hrun, g1, g2, g3, g4⟩


/-! ### The endpoint-variant invariant: every branch, recovered or not -/

theorem deleteLoop_scope (api : Api σ) (org : Bool) (owner pkgType pkg : String)
    (toDelete : List Version) (flag : Bool) (s : σ) :
    (deleteLoop api org owner pkgType pkg toDelete flag s).2.2.all (scopeOk org) = true := by
  induction toDelete generalizing flag s with
  | nil => simp [deleteLoop]
  | cons v rest ih =>
    rcases hd : api.deleteVersion org owner pkgType pkg v.id s with ⟨rd, s₁⟩
    cases rd with
    | ok u =>
      have hrec := ih flag s₁
      rcases hrun : deleteLoop api org owner pkgType pkg rest flag s₁ with ⟨rL, s₂, evs⟩
      rw [hrun] at hrec
      rw [deleteLoop_cons_ok hd hrun]
      simp only [List.all_cons, Bool.and_eq_true]
      exact ⟨by simp [scopeOk, Event.callScope, deletingVersionLog],
        by simp [scopeOk, Event.callScope],
        by simp [scopeOk, Event.callScope, deletedVersionLog], hrec⟩
    | error e =>
      cases e with
      | request st m =>
        cases h404 : st == 404 with
        | true =>
          have hrec := ih flag s₁
          rcases hrun : deleteLoop api org owner pkgType pkg rest flag s₁ with ⟨rL, s₂, evs⟩
          rw [hrun] at hrec
          rw [deleteLoop_cons_notFound hd h404 hrun]
          simp only [List.all_cons, Bool.and_eq_true]
          exact ⟨by simp [scopeOk, Event.callScope, deletingVersionLog],
            by simp [scopeOk, Event.callScope],
            by simp [scopeOk, Event.callScope, versionNotFoundLog], hrec⟩
        | false =>
          cases hm : msgIncludes m lastVersionPattern with
          | true =>
            have hrec := ih true s₁
            rcases hrun : deleteLoop api org owner pkgType pkg rest true s₁ with ⟨rL, s₂, evs⟩
            rw [hrun] at hrec
            rw [deleteLoop_cons_refusal hd h404 hm hrun]
            simp only [List.all_cons, Bool.and_eq_true]
            exact ⟨by simp [scopeOk, Event.callScope, deletingVersionLog],
              by simp [scopeOk, Event.callScope],
              by simp [scopeOk, Event.callScope, lastVersionLog], hrec⟩
          | false =>
            rw [deleteLoop_cons_fatalRequest hd h404 hm]
            simp [scopeOk, Event.callScope, deletingVersionLog, versionErrorLog]
      | other m =>
        rw [deleteLoop_cons_fatalOther hd]
        simp [scopeOk, Event.callScope, deletingVersionLog, versionErrorLog]

theorem processPackage_scope (api : Api σ) (org : Bool) (owner pkgType : String)
    (versions : List String) (pkg : String) (s : σ) :
    (processPackage api org owner pkgType versions pkg s).2.2.all (scopeOk org) = true := by
  rcases hl : api.listVersions org owner pkgType pkg s with ⟨rl, s₁⟩
  cases rl with
  | error e =>
    cases e with
    | request st m =>
      cases h404 : st == 404 with
      | true =>
        rw [processPackage_list_notFound hl h404]
        simp [scopeOk, Event.callScope, pkgNotFoundWarnLog]
      | false =>
        rw [processPackage_list_fatalRequest hl h404]
        simp [scopeOk, Event.callScope, listErrorLog]
    | other m =>
      rw [processPackage_list_fatalOther hl]
      simp [scopeOk, Event.callScope, listErrorLog]
  | ok vs =>
    by_cases hmat : matchedVersions versions vs = []
    · rw [processPackage_noMatch hl hmat]
      simp [scopeOk, Event.callScope, noMatchingLog]
    · have hne : ((matchedVersions versions vs).length == 0) = false := by
        simp [List.length_eq_zero, hmat]
      have hls := deleteLoop_scope api org owner pkgType pkg (matchedVersions versions vs) false s₁
      rcases hloop : deleteLoop api org owner pkgType pkg (matchedVersions versions vs) false s₁
        with ⟨rL, s₂, evsL⟩
      rw [hloop] at hls
      cases rL with
      | error e =>
        rw [processPackage_loopFatal hl hne hloop]
        simp only [List.all_cons, Bool.and_eq_true]
        exact ⟨by simp [scopeOk, Event.callScope], hls⟩
      | ok flag =>
        cases flag with
        | false =>
          rw [processPackage_loopOk_noFlag hl hne hloop]
          simp only [List.all_cons, Bool.and_eq_true]
          exact ⟨by simp [scopeOk, Event.callScope], hls⟩
        | true =>
          rcases hp : api.deletePackage org owner pkgType pkg s₂ with ⟨rp, s₃⟩
          cases rp with
          | ok u =>
            rw [processPackage_flag_pkgOk hl hne hloop hp]
            simp only [List.cons_append, List.all_cons, List.all_append, List.all_nil,
              Bool.and_eq_true]
            exact ⟨by simp [scopeOk, Event.callScope], hls,
              ⟨by simp [scopeOk, Event.callScope, deletingPackageLog],
                by simp [scopeOk, Event.callScope],
                by simp [scopeOk, Event.callScope, deletedPackageLog], trivial⟩⟩
          | error e =>
            cases e with
            | request st m =>
              cases h404 : st == 404 with
              | true =>
                rw [processPackage_flag_pkgNotFound hl hne hloop hp h404]
                simp only [List.cons_append, List.all_cons, List.all_append, List.all_nil,
                  Bool.and_eq_true]
                exact ⟨by simp [scopeOk, Event.callScope], hls,
                  ⟨by simp [scopeOk, Event.callScope, deletingPackageLog],
                    by simp [scopeOk, Event.callScope],
                    by simp [scopeOk, Event.callScope, packageGoneLog], trivial⟩⟩
              | false =>
                rw [processPackage_flag_pkgFatalRequest hl hne hloop hp h404]
                simp only [List.cons_append, List.all_cons, List.all_append, List.all_nil,
                  Bool.and_eq_true]
                exact ⟨by simp [scopeOk, Event.callScope], hls,
                  ⟨by simp [scopeOk, Event.callScope, deletingPackageLog],
                    by simp [scopeOk, Event.callScope],
                    by simp [scopeOk, Event.callScope, packageErrorLog], trivial⟩⟩
            | other m =>
              rw [processPackage_flag_pkgFatalOther hl hne hloop hp]
              simp only [List.cons_append, List.all_cons, List.all_append, List.all_nil,
                Bool.and_eq_true]
              exact ⟨by simp [scopeOk, Event.callScope], hls,
                ⟨by simp [scopeOk, Event.callScope, deletingPackageLog],
                  by simp [scopeOk, Event.callScope],
                  by simp [scopeOk, Event.callScope, packageErrorLog], trivial⟩⟩

theorem processPackages_scope (api : Api σ) (org : Bool) (owner pkgType : String)
    (versions packages : List String) (s : σ) :
    (processPackages api org owner pkgType versions packages s).2.2.all (scopeOk org)
      = true := by
  induction packages generalizing s with
  | nil => simp [processPackages]
  | cons pkg rest ih =>
    have hps := processPackage_scope api org owner pkgType versions pkg s
    rcases hp : processPackage api org owner pkgType versions pkg s with ⟨rp, s₁, evs⟩
    rw [hp] at hps
    cases rp with
    | error e =>
      rw [processPackages_cons_fatal hp]
      exact hps
    | ok u =>
      have hrest := ih s₁
      rcases hrun : processPackages api org owner pkgType versions rest s₁ with ⟨r, s₂, evs₂⟩
      rw [hrun] at hrest
      rw [processPackages_cons_ok hp hrun]
      rw [List.all_append]
      simp [hps, hrest]


/-- The event trace of a `run` outcome. -/
def runEvents : RunResult σ → List Event
  | .exited _ evs => evs
  | .finished _ _ evs => evs

/-! ## Claims -/

/-- C9: if the account-kind lookup fails for any reason, the failure
propagates uncaught: the run aborts with that very error before any listing
or deletion call is made — the only registry interaction in the trace is the
lookup itself. -/
theorem c9_account_lookup_failure_aborts {σ : Type} (api : Api σ)
    (owner pkgType : String) (packages versions : List String) (s s₁ : σ) (e : JsError)
    (h : api.getUserType owner s = (.error e, s₁)) :
    deletePackageVersions api owner pkgType packages versions s
      = (.error e, s₁, [Event.getUserCall owner])
    ∧ listingCalls [Event.getUserCall owner] = []
    ∧ versionDeleteCalls [Event.getUserCall owner] = []
    ∧ packageDeleteCalls [Event.getUserCall owner] = [] :=
  ⟨deletePackageVersions_userFatal h, rfl, rfl, rfl⟩

/-- Stateless oracle whose account lookup fails, for the C9 witness. -/
def apiW9 : Api Unit :=
  { getUserType := fun _ s => (.error (.other "lookup failed"), s)
    listVersions := fun _ _ _ _ s => (.ok [], s)
    deleteVersion := fun _ _ _ _ _ s => (.ok (), s)
    deletePackage := fun _ _ _ _ s => (.ok (), s) }

theorem c9_witness :
    deletePackageVersions apiW9 "wherobots" "npm" ["libA"] ["1.0.0"] ()
      = (.error (.other "lookup failed"), (), [Event.getUserCall "wherobots"])
    ∧ listingCalls [Event.getUserCall "wherobots"] = []
    ∧ versionDeleteCalls [Event.getUserCall "wherobots"] = []
    ∧ packageDeleteCalls [Event.getUserCall "wherobots"] = [] :=
  c9_account_lookup_failure_aborts apiW9 "wherobots" "npm" ["libA"] ["1.0.0"] () ()
    (.other "lookup failed") rfl

/-- C7: the account kind resolved once at the start of the run determines the
endpoint variant (org-scoped vs user-scoped) of every subsequent listing,
version-deletion and package-deletion call: every call event in the run
trace carries the one scope flag `userType == "Organization"` — the two
variants are never mixed within one run. -/
theorem c7_endpoint_variant_never_mixed {σ : Type} (api : Api σ)
    (owner pkgType : String) (packages versions : List String) (s s₁ : σ)
    (userType : String)
    (h : api.getUserType owner s = (.ok userType, s₁)) :
    (deletePackageVersions api owner pkgType packages versions s).2.2.all
      (scopeOk (userType == "Organization")) = true := by
  have hps := processPackages_scope api (userType == "Organization") owner pkgType
    versions packages s₁
  rcases hrun : processPackages api (userType == "Organization") owner pkgType versions
    packages s₁ with ⟨r, s₂, evs⟩
  rw [hrun] at hps
  rw [deletePackageVersions_userOk h hrun]
  simp only [List.all_cons, Bool.and_eq_true]
  exact ⟨by simp [scopeOk, Event.callScope], by simp [scopeOk, Event.callScope, ownerTypeLog],
    hps⟩

/-- Stateless oracle owned by an organization, for the C7 witness. -/
def apiW7 : Api Unit :=
  { getUserType := fun _ s => (.ok "Organization", s)
    listVersions := fun _ _ _ _ s => (.ok [⟨7, "1.0.0"⟩, ⟨8, "2.0.0"⟩], s)
    deleteVersion := fun _ _ _ _ _ s => (.ok (), s)
    deletePackage := fun _ _ _ _ s => (.ok (), s) }

theorem c7_witness :
    (deletePackageVersions apiW7 "wherobots" "maven" ["libA", "libB"] ["1.0.0"] ()).2.2.all
      (scopeOk ("Organization" == "Organization")) = true :=
  c7_endpoint_variant_never_mixed apiW7 "wherobots" "maven" ["libA", "libB"] ["1.0.0"]
    () () "Organization" rfl

/-- C4: if the enumeration of a package fails with NotFound (a 404
`RequestError`), that package contributes exactly a listing call and a
warning log — zero deletion calls — and the loop continues: the run over the
remaining packages is exactly what it would have been, so the final outcome
is whatever the remaining packages produce (success when they all
succeed). -/
theorem c4_enumeration_not_found_skips {σ : Type} (api : Api σ) (org : Bool)
    (owner pkgType : String) (versions : List String) (pkg : String)
    (rest : List String) (s s₁ : σ) (st : Nat) (m : String)
    (hl : api.listVersions org owner pkgType pkg s = (.error (.request st m), s₁))
    (h404 : (st == 404) = true) :
    processPackage api org owner pkgType versions pkg s
      = (.ok (), s₁, [Event.listCall org owner pkg, pkgNotFoundWarnLog pkg])
    ∧ versionDeleteCalls [Event.listCall org owner pkg, pkgNotFoundWarnLog pkg] = []
    ∧ packageDeleteCalls [Event.listCall org owner pkg, pkgNotFoundWarnLog pkg] = []
    ∧ hasWarning [Event.listCall org owner pkg, pkgNotFoundWarnLog pkg] = true
    ∧ (processPackages api org owner pkgType versions (pkg :: rest) s).1
        = (processPackages api org owner pkgType versions rest s₁).1
    ∧ (processPackages api org owner pkgType versions (pkg :: rest) s).2.2
        = [Event.listCall org owner pkg, pkgNotFoundWarnLog pkg]
          ++ (processPackages api org owner pkgType versions rest s₁).2.2 := by
  have hp := @processPackage_list_notFound _ _ _ _ _ _ versions _ _ _ _ hl h404
  rcases hrun : processPackages api org owner pkgType versions rest s₁ with ⟨r, s₂, evs₂⟩
  have hcons := processPackages_cons_ok hp hrun
  refine ⟨hp, rfl, rfl, by simp [hasWarning, pkgNotFoundWarnLog], ?_, ?_⟩
  · simp only [hcons, hrun]
  · simp only [hcons, hrun]

/-- Stateless oracle where `ghost` is absent but `libB` exists, for the C4
witness. -/
def apiW4 : Api Unit :=
  { getUserType := fun _ s => (.ok "User", s)
    listVersions := fun _ _ _ pkg s =>
      if pkg == "ghost" then (.error (.request 404 "Not Found"), s)
      else (.ok [⟨3, "1.0.0"⟩], s)
    deleteVersion := fun _ _ _ _ _ s => (.ok (), s)
    deletePackage := fun _ _ _ _ s => (.ok (), s) }

theorem c4_witness :
    processPackage apiW4 false "owner" "npm" ["1.0.0"] "ghost" ()
      = (.ok (), (), [Event.listCall false "owner" "ghost", pkgNotFoundWarnLog "ghost"])
    ∧ versionDeleteCalls [Event.listCall false "owner" "ghost", pkgNotFoundWarnLog "ghost"] = []
    ∧ packageDeleteCalls [Event.listCall false "owner" "ghost", pkgNotFoundWarnLog "ghost"] = []
    ∧ hasWarning [Event.listCall false "owner" "ghost", pkgNotFoundWarnLog "ghost"] = true
    ∧ (processPackages apiW4 false "owner" "npm" ["1.0.0"] ["ghost", "libB"] ()).1
        = (processPackages apiW4 false "owner" "npm" ["1.0.0"] ["libB"] ()).1
    ∧ (processPackages apiW4 false "owner" "npm" ["1.0.0"] ["ghost", "libB"] ()).2.2
        = [Event.listCall false "owner" "ghost", pkgNotFoundWarnLog "ghost"]
          ++ (processPackages apiW4 false "owner" "npm" ["1.0.0"] ["libB"] ()).2.2 :=
  c4_enumeration_not_found_skips apiW4 false "owner" "npm" ["1.0.0"] "ghost" ["libB"]
    () () 404 "Not Found" rfl rfl


/-- C5: the versions selected for deletion for a package are exactly the
enumerated versions whose label appears in the requested labels: membership
in the selection is equivalent to being enumerated with a requested name,
each selected version gets exactly one deletion call, and when the selection
is empty no deletion call at all is made for the package — an informational
log is emitted and the run continues exactly as if the package were not
there, completing successfully whenever the rest does. -/
theorem c5_matching_is_label_filter (p : PureApi) (org : Bool)
    (owner pkgType pkg : String) (versions : List String) (vs : List Version)
    (rest : List String)
    (hl : p.list pkg = .ok vs)
    (hrec : ∀ v ∈ matchedVersions versions vs, recoveredDelete (p.delVer pkg v.id) = true)
    (hpkg : recoveredPkgDelete (p.delPkg pkg) = true) :
    (∀ v, v ∈ matchedVersions versions vs ↔ v ∈ vs ∧ v.name ∈ versions)
    ∧ (∃ evs, processPackage p.toApi org owner pkgType versions pkg () = (.ok (), (), evs)
        ∧ versionDeleteCalls evs = (matchedVersions versions vs).map (fun v => (pkg, v.id)))
    ∧ (matchedVersions versions vs = [] →
        processPackage p.toApi org owner pkgType versions pkg ()
          = (.ok (), (), [Event.listCall org owner pkg, noMatchingLog pkg])
        ∧ (processPackages p.toApi org owner pkgType versions (pkg :: rest) ()).1
            = (processPackages p.toApi org owner pkgType versions rest ()).1
        ∧ (processPackages p.toApi org owner pkgType versions (pkg :: rest) ()).2.2
            = [Event.listCall org owner pkg, noMatchingLog pkg]
              ++ (processPackages p.toApi org owner pkgType versions rest ()).2.2) := by
  refine ⟨?_, ?_, ?_⟩
  · intro v
    simp [matchedVersions, List.mem_filter]
  · obtain ⟨evs₁, evs₂, hp, a1, a2, a3, a4, a5, a6, a7⟩ :=
      processPackage_recovered p org owner pkgType pkg versions vs hl hrec hpkg
    exact ⟨_, hp, by simp [a1, a3]⟩
  · intro hmat
    have hl2 : p.toApi.listVersions org owner pkgType pkg () = (.ok vs, ()) := by
      simp [PureApi.toApi, hl]
    have hp := @processPackage_noMatch _ _ _ _ _ _ versions _ _ _ hl2 hmat
    rcases hrun : processPackages p.toApi org owner pkgType versions rest () with ⟨r, s₂, evs₂⟩
    have hcons := processPackages_cons_ok hp hrun
    exact ⟨hp, by simp only [hcons, hrun], by simp only [hcons, hrun]⟩

/-- Stateless oracle whose only enumerated version does not match the
requested labels, for the C5 witness. -/
def apiW5 : PureApi :=
  { userType := .ok "User"
    list := fun _ => .ok [⟨1, "3.0.0"⟩]
    delVer := fun _ _ => .ok ()
    delPkg := fun _ => .ok () }

theorem c5_witness :
    (∀ v, v ∈ matchedVersions ["1.0.0"] [⟨1, "3.0.0"⟩]
      ↔ v ∈ [(⟨1, "3.0.0"⟩ : Version)] ∧ v.name ∈ ["1.0.0"])
    ∧ (∃ evs, processPackage apiW5.toApi false "owner" "npm" ["1.0.0"] "libA" ()
          = (.ok (), (), evs)
        ∧ versionDeleteCalls evs
            = (matchedVersions ["1.0.0"] [⟨1, "3.0.0"⟩]).map (fun v => ("libA", v.id)))
    ∧ (matchedVersions ["1.0.0"] [⟨1, "3.0.0"⟩] = [] →
        processPackage apiW5.toApi false "owner" "npm" ["1.0.0"] "libA" ()
          = (.ok (), (), [Event.listCall false "owner" "libA", noMatchingLog "libA"])
        ∧ (processPackages apiW5.toApi false "owner" "npm" ["1.0.0"] ["libA", "libB"] ()).1
            = (processPackages apiW5.toApi false "owner" "npm" ["1.0.0"] ["libB"] ()).1
        ∧ (processPackages apiW5.toApi false "owner" "npm" ["1.0.0"] ["libA", "libB"] ()).2.2
            = [Event.listCall false "owner" "libA", noMatchingLog "libA"]
              ++ (processPackages apiW5.toApi false "owner" "npm" ["1.0.0"] ["libB"] ()).2.2) :=
  c5_matching_is_label_filter apiW5 false "owner" "npm" "libA" ["1.0.0"]
    [⟨1, "3.0.0"⟩] ["libB"] rfl (by decide) rfl

/-! ### Abort-path lemmas (for the fatal-error claim) -/

/-- A deletion outcome the per-version catch block does not recover from. -/
def fatalDelete (e : JsError) : Bool :=
  !(isNotFound e || isLastVersionRefusal e)

/-- If the attempts before `v` are all recovered and the deletion of `v` fails
with an unrecovered error, the loop stops at `v`: the error propagates, the
versions after `v` get no deletion call, and no package-level call is
made. -/
theorem deleteLoop_abort (p : PureApi) (org : Bool) (owner pkgType pkg : String)
    (m1 : List Version) (v : Version) (m2 : List Version) (flag : Bool) (e : JsError)
    (hm1 : ∀ w ∈ m1, recoveredDelete (p.delVer pkg w.id) = true)
    (hv : p.delVer pkg v.id = .error e)
    (hfatal : fatalDelete e = true) :
    ∃ evs,
      deleteLoop p.toApi org owner pkgType pkg (m1 ++ v :: m2) flag ()
        = (.error e, (), evs)
      ∧ versionDeleteCalls evs = m1.map (fun w => (pkg, w.id)) ++ [(pkg, v.id)]
      ∧ packageDeleteCalls evs = []
      ∧ listingCalls evs = [] := by
  induction m1 generalizing flag with
  | nil =>
    have hv2 : p.toApi.deleteVersion org owner pkgType pkg v.id () = (.error e, ()) := by
      simp [PureApi.toApi, hv]
    cases e with
    | request st m =>
      have h1 := hfatal
      simp only [fatalDelete, isNotFound, isLastVersionRefusal, Bool.not_or,
        Bool.and_eq_true, Bool.not_eq_true'] at h1
      have h404 : (st == 404) = false := h1.1
      have hm : msgIncludes m lastVersionPattern = false := by
        have h2 := h1.2
        rw [bne, h404] at h2
        simpa using h2
      refine ⟨_, deleteLoop_cons_fatalRequest hv2 h404 hm, ?_, ?_, ?_⟩
      · simp [deletingVersionLog, versionErrorLog]
      · simp [deletingVersionLog, versionErrorLog]
      · simp [deletingVersionLog, versionErrorLog]
    | other m =>
      refine ⟨_, deleteLoop_cons_fatalOther hv2, ?_, ?_, ?_⟩
      · simp [deletingVersionLog, versionErrorLog]
      · simp [deletingVersionLog, versionErrorLog]
      · simp [deletingVersionLog, versionErrorLog]
  | cons w m1r ih =>
    have hw : recoveredDelete (p.delVer pkg w.id) = true := hm1 w (List.mem_cons_self _ _)
    have hm1r : ∀ x ∈ m1r, recoveredDelete (p.delVer pkg x.id) = true :=
      fun x hx => hm1 x (List.mem_cons_of_mem _ hx)
    rw [List.cons_append]
    cases hd : p.delVer pkg w.id with
    | ok u =>
      obtain ⟨evs, hrun, h1, h2, h3⟩ := ih flag hm1r
      have hd2 : p.toApi.deleteVersion org owner pkgType pkg w.id () = (.ok u, ()) := by
        simp [PureApi.toApi, hd]
      refine ⟨_, deleteLoop_cons_ok hd2 hrun, ?_, ?_, ?_⟩
      · simp [deletingVersionLog, deletedVersionLog, h1]
      · simp [deletingVersionLog, deletedVersionLog, h2]
      · simp [deletingVersionLog, deletedVersionLog, h3]
    | error e2 =>
      cases e2 with
      | request st m =>
        cases h404 : st == 404 with
        | true =>
          obtain ⟨evs, hrun, h1, h2, h3⟩ := ih flag hm1r
          have hd2 : p.toApi.deleteVersion org owner pkgType pkg w.id ()
              = (.error (.request st m), ()) := by
            simp [PureApi.toApi, hd]
          refine ⟨_, deleteLoop_cons_notFound hd2 h404 hrun, ?_, ?_, ?_⟩
          · simp [deletingVersionLog, versionNotFoundLog, h1]
          · simp [deletingVersionLog, versionNotFoundLog, h2]
          · simp [deletingVersionLog, versionNotFoundLog, h3]
        | false =>
          have hmm : msgIncludes m lastVersionPattern = true := by
            simp only [recoveredDelete, hd, isNotFound, isLastVersionRefusal, h404, bne,
              Bool.not_false, Bool.true_and, Bool.false_or] at hw
            exact hw
          obtain ⟨evs, hrun, h1, h2, h3⟩ := ih true hm1r
          have hd2 : p.toApi.deleteVersion org owner pkgType pkg w.id ()
              = (.error (.request st m), ()) := by
            simp [PureApi.toApi, hd]
          refine ⟨_, deleteLoop_cons_refusal hd2 h404 hmm hrun, ?_, ?_, ?_⟩
          · simp [deletingVersionLog, lastVersionLog, h1]
          · simp [deletingVersionLog, lastVersionLog, h2]
          · simp [deletingVersionLog, lastVersionLog, h3]
      | other m =>
        exfalso
        simp only [recoveredDelete, hd, isNotFound, isLastVersionRefusal, Bool.or_self] at hw
        exact Bool.false_ne_true hw

/-- If the listing succeeds, the matched versions split as
`m1 ++ v :: m2` with every attempt in `m1` recovered and the deletion of `v`
fatal, the processing of the package aborts at `v`: the error propagates,
the versions in `m2` get no deletion call, and no package-level deletion
call is made. -/
theorem processPackage_abort (p : PureApi) (org : Bool) (owner pkgType pkg : String)
    (versions : List String) (vs : List Version)
    (m1 : List Version) (v : Version) (m2 : List Version) (e : JsError)
    (hl : p.list pkg = .ok vs)
    (hmat : matchedVersions versions vs = m1 ++ v :: m2)
    (hm1 : ∀ w ∈ m1, recoveredDelete (p.delVer pkg w.id) = true)
    (hv : p.delVer pkg v.id = .error e)
    (hfatal : fatalDelete e = true) :
    ∃ evs,
      processPackage p.toApi org owner pkgType versions pkg ()
        = (.error e, (), Event.listCall org owner pkg :: evs)
      ∧ versionDeleteCalls evs = m1.map (fun w => (pkg, w.id)) ++ [(pkg, v.id)]
      ∧ packageDeleteCalls evs = []
      ∧ listingCalls evs = [] := by
  have hl2 : p.toApi.listVersions org owner pkgType pkg () = (.ok vs, ()) := by
    simp [PureApi.toApi, hl]
  have hne : ((matchedVersions versions vs).length == 0) = false := by
    rw [hmat]
    simp
  obtain ⟨evs, hloop, h1, h2, h3⟩ :=
    deleteLoop_abort p org owner pkgType pkg m1 v m2 false e hm1 hv hfatal
  rw [← hmat] at hloop
  exact ⟨evs, processPackage_loopFatal hl2 hne hloop, h1, h2, h3⟩

/-- Splitting the outer loop over an append when the first part completes
normally. -/
theorem processPackages_append_ok {σ : Type} {api : Api σ} {org : Bool}
    {owner pkgType : String} {versions : List String} {l1 l2 : List String}
    {s s₁ s₂ : σ} {u : Unit} {evs₁ evs₂ : List Event} {r : Except JsError Unit}
    (h1 : processPackages api org owner pkgType versions l1 s = (.ok u, s₁, evs₁))
    (h2 : processPackages api org owner pkgType versions l2 s₁ = (r, s₂, evs₂)) :
    processPackages api org owner pkgType versions (l1 ++ l2) s
      = (r, s₂, evs₁ ++ evs₂) := by
  induction l1 generalizing s evs₁ with
  | nil =>
    simp only [processPackages, Prod.mk.injEq] at h1
    obtain ⟨-, hs, hevs⟩ := h1
    subst hs
    subst hevs
    simpa using h2
  | cons pkg l1r ih =>
    rcases hp : processPackage api org owner pkgType versions pkg s with ⟨rp, sp, evsp⟩
    cases rp with
    | error e =>
      rw [processPackages_cons_fatal hp] at h1
      simp at h1
    | ok up =>
      rcases hrun1 : processPackages api org owner pkgType versions l1r sp with ⟨r1, s1r, e1⟩
      rw [processPackages_cons_ok hp hrun1] at h1
      simp only [Prod.mk.injEq] at h1
      obtain ⟨hr1, hs1, hevs1⟩ := h1
      subst hs1
      cases r1 with
      | error e => exact absurd hr1 (by simp)
      | ok u1 =>
        have := ih hrun1
        rw [List.cons_append, processPackages_cons_ok hp this]
        rw [← hevs1, List.append_assoc]

/-- When the five input validations pass, `run` reaches the orchestration and
its outcome is the orchestration outcome, after the four startup log
lines. -/
theorem runAction_valid {σ : Type} {api : Api σ} {inputs : WorkflowInput} {s s₁ : σ}
    {r : Except JsError Unit} {evs : List Event}
    (h1 : truthy inputs.packageType = true)
    (h2 : truthy inputs.githubToken = true)
    (h3 : truthy inputs.owner = true)
    (h4 : inputs.packages.isSome = true)
    (h5 : inputs.versions.isSome = true)
    (hrun : deletePackageVersions api inputs.owner inputs.packageType
      (inputs.packages.getD []) (inputs.versions.getD []) s = (r, s₁, evs)) :
    runAction api inputs s = .finished r s₁
      ([ Event.logged .default "📕" ("given owner is \"" ++ inputs.owner ++ "\""),
         Event.logged .default "📕" ("given packageType is \"" ++ inputs.packageType ++ "\""),
         Event.logged .default "📕"
           ("given packages are \"" ++ String.intercalate "," (inputs.packages.getD []) ++ "\""),
         Event.logged .default "🏷"
           ("given versions are \"" ++ String.intercalate "," (inputs.versions.getD []) ++ "\"")
       ] ++ evs) := by
  simp only [runAction, validateInputField, h1, h2, h3, h4, h5, Bool.not_true,
    Bool.false_eq_true, if_false, hrun]


/-- C2: if a per-version deletion call fails with any error other than
NotFound or LastVersionRefusal, the run aborts immediately: the remaining
matched versions of that package and all later packages are never touched
(the trace shows listings only for the packages up to the failing one and
deletion calls only up to the failing version), the orchestration rejects
with the original error, and through the `main.ts` handler the final outcome
of the run is a failure carrying the message of that error. -/
theorem c2_unexpected_error_aborts_run (p : PureApi)
    (owner pkgType userType : String) (versions : List String)
    (done : List String) (pkg : String) (later : List String)
    (vs m1 : List Version) (v : Version) (m2 : List Version) (e : JsError)
    (hu : p.userType = .ok userType)
    (hdone : done.all (pkgRecovered p versions) = true)
    (hl : p.list pkg = .ok vs)
    (hmat : matchedVersions versions vs = m1 ++ v :: m2)
    (hm1 : ∀ w ∈ m1, recoveredDelete (p.delVer pkg w.id) = true)
    (hv : p.delVer pkg v.id = .error e)
    (hfatal : fatalDelete e = true) :
    ∃ evs,
      deletePackageVersions p.toApi owner pkgType (done ++ pkg :: later) versions ()
        = (.error e, (), evs)
      ∧ listingCalls evs = done ++ [pkg]
      ∧ versionDeleteCalls evs
          = (done.flatMap fun q => (matchedOf p versions q).map (fun w => (q, w.id)))
            ++ (m1.map (fun w => (pkg, w.id)) ++ [(pkg, v.id)])
      ∧ (∀ inputs : WorkflowInput,
          inputs.owner = owner → inputs.packageType = pkgType →
          inputs.packages = some (done ++ pkg :: later) →
          inputs.versions = some versions →
          truthy inputs.packageType = true →
          truthy inputs.githubToken = true →
          truthy inputs.owner = true →
          runOutcomeOf (runAction p.toApi inputs ()) = .failed (JsError.msg e)) := by
  obtain ⟨evsD, hrunD, d1, d2, d3, d4⟩ :=
    processPackages_recovered p (userType == "Organization") owner pkgType versions done hdone
  obtain ⟨evsP, hpAbort, p1, p2, p3⟩ :=
    processPackage_abort p (userType == "Organization") owner pkgType pkg versions vs
      m1 v m2 e hl hmat hm1 hv hfatal
  have hcons : processPackages p.toApi (userType == "Organization") owner pkgType versions
      (pkg :: later) ()
      = (.error e, (), Event.listCall (userType == "Organization") owner pkg :: evsP) :=
    processPackages_cons_fatal hpAbort
  have happ := processPackages_append_ok hrunD hcons
  have hu2 : p.toApi.getUserType owner () = (.ok userType, ()) := by
    simp [PureApi.toApi, hu]
  have hfull := deletePackageVersions_userOk hu2 happ
  refine ⟨_, hfull, ?_, ?_, ?_⟩
  · simp [ownerTypeLog, d1, p3]
  · simp [ownerTypeLog, d2, p1]
  · intro inputs ho hpt hpk hver t1 t2 t3
    have hrun2 : deletePackageVersions p.toApi inputs.owner inputs.packageType
        (inputs.packages.getD []) (inputs.versions.getD []) ()
        = (.error e, (),
          Event.getUserCall owner :: ownerTypeLog userType ::
            (evsD ++ Event.listCall (userType == "Organization") owner pkg :: evsP)) := by
      rw [ho, hpt, hpk, hver]
      exact hfull
    rw [runAction_valid t1 t2 t3 (by rw [hpk]; rfl) (by rw [hver]; rfl) hrun2]
    rfl

/-- Stateless oracle where the second matched version of `bad` fails with a
500 error, for the C2 witness. -/
def apiW2 : PureApi :=
  { userType := .ok "User"
    list := fun pkg =>
      if pkg == "done1" then .ok [⟨1, "1.0.0"⟩]
      else if pkg == "bad" then .ok [⟨2, "1.0.0"⟩, ⟨3, "2.0.0"⟩]
      else .ok [⟨9, "1.0.0"⟩]
    delVer := fun pkg id =>
      if pkg == "bad" && id == 3 then .error (.request 500 "Server Error") else .ok ()
    delPkg := fun _ => .ok () }

theorem c2_witness :
    ∃ evs,
      deletePackageVersions apiW2.toApi "owner" "npm" (["done1"] ++ "bad" :: ["later1"])
          ["1.0.0", "2.0.0"] ()
        = (.error (.request 500 "Server Error"), (), evs)
      ∧ listingCalls evs = ["done1"] ++ ["bad"]
      ∧ versionDeleteCalls evs
          = (["done1"].flatMap fun q =>
              (matchedOf apiW2 ["1.0.0", "2.0.0"] q).map (fun w => (q, w.id)))
            ++ ([(⟨2, "1.0.0"⟩ : Version)].map (fun w => ("bad", w.id)) ++ [("bad", 3)])
      ∧ (∀ inputs : WorkflowInput,
          inputs.owner = "owner" → inputs.packageType = "npm" →
          inputs.packages = some (["done1"] ++ "bad" :: ["later1"]) →
          inputs.versions = some ["1.0.0", "2.0.0"] →
          truthy inputs.packageType = true →
          truthy inputs.githubToken = true →
          truthy inputs.owner = true →
          runOutcomeOf (runAction apiW2.toApi inputs ())
            = .failed (JsError.msg (.request 500 "Server Error"))) :=
  c2_unexpected_error_aborts_run apiW2 "owner" "npm" "User" ["1.0.0", "2.0.0"]
    ["done1"] "bad" ["later1"] [⟨2, "1.0.0"⟩, ⟨3, "2.0.0"⟩] [⟨2, "1.0.0"⟩] ⟨3, "2.0.0"⟩ []
    (.request 500 "Server Error") rfl (by decide) rfl (by decide) (by decide) (by decide)
    (by decide)


/-- C10: for a failing per-version deletion call, the package-level-delete
fallback is triggered iff the failure is a `RequestError` whose status is
not 404 and whose message contains `"last version of a package"`; a
non-`RequestError` failure is fatal whatever its message says, and a 404
`RequestError` is treated as already-deleted (the run continues with no
fallback). -/
theorem c10_fallback_trigger_condition (p : PureApi) (org : Bool)
    (owner pkgType pkg : String) (versions : List String) (v : Version) (e : JsError)
    (hl : p.list pkg = .ok [v])
    (hname : versions.contains v.name = true)
    (hv : p.delVer pkg v.id = .error e)
    (hpk : p.delPkg pkg = .ok ()) :
    (packageDeleteCalls (processPackage p.toApi org owner pkgType versions pkg ()).2.2
        = [pkg]
      ↔ ∃ st m, e = .request st m ∧ (st == 404) = false
          ∧ msgIncludes m lastVersionPattern = true)
    ∧ (∀ m, e = .other m →
        (processPackage p.toApi org owner pkgType versions pkg ()).1 = .error e
        ∧ packageDeleteCalls (processPackage p.toApi org owner pkgType versions pkg ()).2.2
            = [])
    ∧ (∀ st m, e = .request st m → (st == 404) = true →
        (processPackage p.toApi org owner pkgType versions pkg ()).1 = .ok ()
        ∧ packageDeleteCalls (processPackage p.toApi org owner pkgType versions pkg ()).2.2
            = []) := by
  have hl2 : p.toApi.listVersions org owner pkgType pkg () = (.ok [v], ()) := by
    simp [PureApi.toApi, hl]
  have hv2 : p.toApi.deleteVersion org owner pkgType pkg v.id () = (.error e, ()) := by
    simp [PureApi.toApi, hv]
  have hvn : v.name ∈ versions := by simpa using hname
  have hmat : matchedVersions versions [v] = [v] := by
    simp [matchedVersions, hvn]
  have hne : ((matchedVersions versions [v]).length == 0) = false := by
    rw [hmat]
    rfl
  cases e with
  | request st m =>
    cases h404 : st == 404 with
    | true =>
      have hloop : deleteLoop p.toApi org owner pkgType pkg (matchedVersions versions [v])
          false () = (.ok false, (),
            [deletingVersionLog pkg v, Event.deleteVersionCall org owner pkg v.id,
              versionNotFoundLog pkg v]) := by
        rw [hmat]
        exact deleteLoop_cons_notFound hv2 h404 rfl
      have hproc := processPackage_loopOk_noFlag hl2 hne hloop
      refine ⟨?_, ?_, ?_⟩
      · rw [hproc]
        constructor
        · intro hcontra
          exfalso
          simp [deletingVersionLog, versionNotFoundLog] at hcontra
        · rintro ⟨st2, m2, heq, h404b, hmb⟩
          exfalso
          injection heq with e1 e2
          subst e1
          rw [h404] at h404b
          exact Bool.false_ne_true h404b.symm
      · intro m2 heq
        exact absurd heq (by intro hc; exact JsError.noConfusion hc)
      · intro st2 m2 heq h404b
        rw [hproc]
        exact ⟨rfl, by simp [deletingVersionLog, versionNotFoundLog]⟩
    | false =>
      cases hmg : msgIncludes m lastVersionPattern with
      | true =>
        have hloop : deleteLoop p.toApi org owner pkgType pkg (matchedVersions versions [v])
            false () = (.ok true, (),
              [deletingVersionLog pkg v, Event.deleteVersionCall org owner pkg v.id,
                lastVersionLog pkg]) := by
          rw [hmat]
          exact deleteLoop_cons_refusal hv2 h404 hmg rfl
        have hpk2 : p.toApi.deletePackage org owner pkgType pkg () = (.ok (), ()) := by
          simp [PureApi.toApi, hpk]
        have hproc := processPackage_flag_pkgOk hl2 hne hloop hpk2
        refine ⟨?_, ?_, ?_⟩
        · rw [hproc]
          constructor
          · intro _
            exact ⟨st, m, rfl, h404, hmg⟩
          · intro _
            simp [deletingVersionLog, lastVersionLog, deletingPackageLog, deletedPackageLog]
        · intro m2 heq
          exact absurd heq (by intro hc; exact JsError.noConfusion hc)
        · intro st2 m2 heq h404b
          exfalso
          injection heq with e1 e2
          subst e1
          rw [h404] at h404b
          exact Bool.false_ne_true h404b
      | false =>
        have hloop : deleteLoop p.toApi org owner pkgType pkg (matchedVersions versions [v])
            false () = (.error (.request st m), (),
              [deletingVersionLog pkg v, Event.deleteVersionCall org owner pkg v.id,
                versionErrorLog pkg v]) := by
          rw [hmat]
          exact deleteLoop_cons_fatalRequest hv2 h404 hmg
        have hproc := processPackage_loopFatal hl2 hne hloop
        refine ⟨?_, ?_, ?_⟩
        · rw [hproc]
          constructor
          · intro hcontra
            exfalso
            simp [deletingVersionLog, versionErrorLog] at hcontra
          · rintro ⟨st2, m2, heq, h404b, hmb⟩
            exfalso
            injection heq with e1 e2
            subst e1
            subst e2
            rw [hmg] at hmb
            exact Bool.false_ne_true hmb
        · intro m2 heq
          exact absurd heq (by intro hc; exact JsError.noConfusion hc)
        · intro st2 m2 heq h404b
          exfalso
          injection heq with e1 e2
          subst e1
          rw [h404] at h404b
          exact Bool.false_ne_true h404b
  | other m =>
    have hloop : deleteLoop p.toApi org owner pkgType pkg (matchedVersions versions [v])
        false () = (.error (.other m), (),
          [deletingVersionLog pkg v, Event.deleteVersionCall org owner pkg v.id,
            versionErrorLog pkg v]) := by
      rw [hmat]
      exact deleteLoop_cons_fatalOther hv2
    have hproc := processPackage_loopFatal hl2 hne hloop
    refine ⟨?_, ?_, ?_⟩
    · rw [hproc]
      constructor
      · intro hcontra
        exfalso
        simp [deletingVersionLog, versionErrorLog] at hcontra
      · rintro ⟨st2, m2, heq, h404b, hmb⟩
        exact absurd heq (by intro hc; exact JsError.noConfusion hc)
    · intro m2 heq
      rw [hproc]
      injection heq with e1
      subst e1
      exact ⟨rfl, by simp [deletingVersionLog, versionErrorLog]⟩
    · intro st2 m2 heq h404b
      exact absurd heq (by intro hc; exact JsError.noConfusion hc)

/-- Stateless oracle whose sole version-deletion outcome is a non-404
refusal carrying the last-version message, for the C10 witness. -/
def apiW10 : PureApi :=
  { userType := .ok "User"
    list := fun _ => .ok [⟨1, "1.0.0"⟩]
    delVer := fun _ _ => .error (.request 400 "Cannot delete the last version of a package")
    delPkg := fun _ => .ok () }

theorem c10_witness :
    (packageDeleteCalls
        (processPackage apiW10.toApi false "owner" "npm" ["1.0.0"] "libA" ()).2.2
        = ["libA"]
      ↔ ∃ st m, (JsError.request 400 "Cannot delete the last version of a package" : JsError)
            = .request st m
          ∧ (st == 404) = false ∧ msgIncludes m lastVersionPattern = true)
    ∧ (∀ m, (JsError.request 400 "Cannot delete the last version of a package" : JsError)
          = .other m →
        (processPackage apiW10.toApi false "owner" "npm" ["1.0.0"] "libA" ()).1
          = .error (.request 400 "Cannot delete the last version of a package")
        ∧ packageDeleteCalls
            (processPackage apiW10.toApi false "owner" "npm" ["1.0.0"] "libA" ()).2.2 = [])
    ∧ (∀ st m, (JsError.request 400 "Cannot delete the last version of a package" : JsError)
          = .request st m → (st == 404) = true →
        (processPackage apiW10.toApi false "owner" "npm" ["1.0.0"] "libA" ()).1 = .ok ()
        ∧ packageDeleteCalls
            (processPackage apiW10.toApi false "owner" "npm" ["1.0.0"] "libA" ()).2.2 = []) :=
  c10_fallback_trigger_condition apiW10 false "owner" "npm" "libA" ["1.0.0"]
    ⟨1, "1.0.0"⟩ (.request 400 "Cannot delete the last version of a package")
    rfl rfl rfl rfl


/-- Stateless oracle where version 1 of `libA` answers with the last-version
refusal and version 2 fails with a 500 error, for the C1 counterexample. -/
def apiC1 : PureApi :=
  { userType := .ok "User"
    list := fun _ => .ok [⟨1, "1.0.0"⟩, ⟨2, "2.0.0"⟩]
    delVer := fun _ id =>
      if id == 1 then .error (.request 400 "Cannot delete the last version of a package")
      else .error (.request 500 "Server Error")
    delPkg := fun _ => .ok () }

/-- C1 counterexample: a run whose per-version deletion loop raises a
LastVersionRefusal (the call for version 1 is made and the oracle answers
with the refusal message) and yet the loop does not complete normally — a
later matched version fails fatally, the run aborts with that error and the
package-level delete capability is never invoked. -/
theorem c1_counterexample :
    isLastVersionRefusal (.request 400 "Cannot delete the last version of a package") = true
    ∧ apiC1.delVer "libA" 1
        = .error (.request 400 "Cannot delete the last version of a package")
    ∧ Event.deleteVersionCall false "owner" "libA" 1
        ∈ (deletePackageVersions apiC1.toApi "owner" "npm" ["libA"]
            ["1.0.0", "2.0.0"] ()).2.2
    ∧ (deletePackageVersions apiC1.toApi "owner" "npm" ["libA"] ["1.0.0", "2.0.0"] ()).1
        = .error (.request 500 "Server Error")
    ∧ packageDeleteCalls
        (deletePackageVersions apiC1.toApi "owner" "npm" ["libA"]
          ["1.0.0", "2.0.0"] ()).2.2 = [] :=
  ⟨by decide, by decide, by decide, by decide, by decide⟩

/-- C1 (amended): for a package whose per-version deletion loop raises a
LastVersionRefusal, the refusal itself is not treated as an error — the flag
is set and the loop continues — and provided every other matched deletion
outcome is also recovered (success, NotFound or another refusal), the loop
completes normally and the package-level delete capability is invoked
exactly once for the package, after all matched versions have been
attempted.  (If a later matched deletion fails fatally, the run aborts and
the package-level delete is not reached.) -/
theorem c1_last_version_fallback (p : PureApi) (org : Bool)
    (owner pkgType pkg : String) (versions : List String) (vs : List Version)
    (hl : p.list pkg = .ok vs)
    (hrec : ∀ v ∈ matchedVersions versions vs, recoveredDelete (p.delVer pkg v.id) = true)
    (hpkg : recoveredPkgDelete (p.delPkg pkg) = true)
    (href : (matchedVersions versions vs).any
        (fun v => refusalResult (p.delVer pkg v.id)) = true) :
    ∃ evs₁ evs₂,
      processPackage p.toApi org owner pkgType versions pkg ()
        = (.ok (), (), Event.listCall org owner pkg :: evs₁ ++ evs₂)
      ∧ versionDeleteCalls evs₁ = (matchedVersions versions vs).map (fun v => (pkg, v.id))
      ∧ packageDeleteCalls evs₁ = []
      ∧ versionDeleteCalls evs₂ = []
      ∧ packageDeleteCalls evs₂ = [pkg] := by
  obtain ⟨e₁, e₂, hp, a1, a2, a3, a4, a5, a6, a7⟩ :=
    processPackage_recovered p org owner pkgType pkg versions vs hl hrec hpkg
  rw [href] at a4
  simp only [if_true] at a4
  exact ⟨e₁, e₂, hp, a1, a2, a3, a4⟩

/-- Stateless oracle where version 1 deletes fine and version 2 answers with
the last-version refusal, for the C1 witness. -/
def apiW1 : PureApi :=
  { userType := .ok "User"
    list := fun _ => .ok [⟨1, "1.0.0"⟩, ⟨2, "2.0.0"⟩]
    delVer := fun _ id =>
      if id == 2 then .error (.request 400 "Cannot delete the last version of a package")
      else .ok ()
    delPkg := fun _ => .ok () }

theorem c1_witness :
    ∃ evs₁ evs₂,
      processPackage apiW1.toApi false "owner" "npm" ["1.0.0", "2.0.0"] "libA" ()
        = (.ok (), (), Event.listCall false "owner" "libA" :: evs₁ ++ evs₂)
      ∧ versionDeleteCalls evs₁
          = (matchedVersions ["1.0.0", "2.0.0"] [⟨1, "1.0.0"⟩, ⟨2, "2.0.0"⟩]).map
              (fun v => ("libA", v.id))
      ∧ packageDeleteCalls evs₁ = []
      ∧ versionDeleteCalls evs₂ = []
      ∧ packageDeleteCalls evs₂ = ["libA"] :=
  c1_last_version_fallback apiW1 false "owner" "npm" "libA" ["1.0.0", "2.0.0"]
    [⟨1, "1.0.0"⟩, ⟨2, "2.0.0"⟩] rfl (by decide) rfl (by decide)

/-- Stateless oracle answering NotFound to every listing, for the C3
counterexample. -/
def apiC3 : Api Unit :=
  { getUserType := fun _ s => (.ok "User", s)
    listVersions := fun _ _ _ _ s => (.error (.request 404 "Not Found"), s)
    deleteVersion := fun _ _ _ _ _ s => (.ok (), s)
    deletePackage := fun _ _ _ _ s => (.ok (), s) }

/-- The raw action inputs with the required `packages` input missing (empty
string), for the C3 counterexample. -/
def rawC3 : RawInputs :=
  { github_token := "token", package_type := "npm", packages := "",
    versions := "1.0.0", owner := "o", contextOwner := "ctx" }

/-- C3 counterexample: with the required `packages` input missing, `getInputs`
parses it to `[""]`, the null validation passes, and the run proceeds to the
registry (an account lookup and a listing call are made) and terminates with
status zero — it does not terminate with a non-zero status before any
registry call. -/
theorem c3_counterexample :
    rawC3.packages = ""
    ∧ (getInputs rawC3).packages = some [""]
    ∧ (runEvents (runAction apiC3 (getInputs rawC3) ())).filter Event.isRegistryCall
        = [Event.getUserCall "o", Event.listCall false "o" ""]
    ∧ mainOutcome apiC3 rawC3 () = .succeeded :=
  ⟨by decide, by decide, by decide, by decide⟩

/-- C3 (amended): the run exits with status 1 before any registry call when
`package_type`, `github_token` or `owner` is missing (empty / falsy), or
when `packages` or `versions` is literally null; but null is the only thing
`packages` and `versions` are validated against, and the input path never
produces null — `getInputs` always yields `some` lists (a missing comma
list parses to `[""]`), so a missing `packages` or `versions` input does
not stop the run before registry calls. -/
theorem c3_missing_input_validation {σ : Type} (api : Api σ) (inputs : WorkflowInput)
    (s : σ)
    (h : truthy inputs.packageType = false ∨ truthy inputs.githubToken = false
      ∨ truthy inputs.owner = false ∨ inputs.packages.isNone = true
      ∨ inputs.versions.isNone = true) :
    (∃ ev, runAction api inputs s = .exited 1 [ev] ∧ Event.isRegistryCall ev = false)
    ∧ (∀ raw : RawInputs, (getInputs raw).packages.isSome = true
        ∧ (getInputs raw).versions.isSome = true) := by
  refine ⟨?_, fun raw => ⟨rfl, rfl⟩⟩
  cases hpt : truthy inputs.packageType with
  | false =>
    exact ⟨Event.logged .errorLevel "🛑" "no tag name provided as an input.",
      by simp [runAction, validateInputField, hpt], rfl⟩
  | true =>
    cases hgt : truthy inputs.githubToken with
    | false =>
      exact ⟨Event.logged .errorLevel "🛑" "no Github token provided",
        by simp [runAction, validateInputField, hpt, hgt], rfl⟩
    | true =>
      cases how : truthy inputs.owner with
      | false =>
        exact ⟨Event.logged .errorLevel "🛑" "An invalid owner was provided!",
          by simp [runAction, validateInputField, hpt, hgt, how], rfl⟩
      | true =>
        cases hpk : inputs.packages.isNone with
        | true =>
          have hpk2 : inputs.packages.isSome = false := by
            cases hx : inputs.packages with
            | none => rfl
            | some x => rw [hx] at hpk; simp at hpk
          exact ⟨Event.logged .errorLevel "🛑" "Invalid packages provided!",
            by simp [runAction, validateInputField, hpt, hgt, how, hpk2], rfl⟩
        | false =>
          cases hvr : inputs.versions.isNone with
          | true =>
            have hpk2 : inputs.packages.isSome = true := by
              cases hx : inputs.packages with
              | none => rw [hx] at hpk; simp at hpk
              | some x => rfl
            have hvr2 : inputs.versions.isSome = false := by
              cases hx : inputs.versions with
              | none => rfl
              | some x => rw [hx] at hvr; simp at hvr
            exact ⟨Event.logged .errorLevel "🛑" "Invalid versions provided!",
              by simp [runAction, validateInputField, hpt, hgt, how, hpk2, hvr2], rfl⟩
          | false =>
            exfalso
            rcases h with h | h | h | h | h
            · rw [hpt] at h
              exact Bool.false_ne_true h.symm
            · rw [hgt] at h
              exact Bool.false_ne_true h.symm
            · rw [how] at h
              exact Bool.false_ne_true h.symm
            · rw [hpk] at h
              exact Bool.false_ne_true h
            · rw [hvr] at h
              exact Bool.false_ne_true h

/-- C3 witness inputs: null `packages`. -/
def inputsW3 : WorkflowInput :=
  { githubToken := "token", owner := "o", packageType := "npm",
    packages := none, versions := some ["1.0.0"] }

theorem c3_witness :
    (∃ ev, runAction apiC3 inputsW3 () = .exited 1 [ev]
      ∧ Event.isRegistryCall ev = false)
    ∧ (∀ raw : RawInputs, (getInputs raw).packages.isSome = true
        ∧ (getInputs raw).versions.isSome = true) :=
  c3_missing_input_validation apiC3 inputsW3 () (by decide)


/-- C8: processing is sequential and order-preserving: the packages are
listed exactly once each, in the order they were supplied, the deletion
calls are grouped per package in that same order, and within each package
they follow the enumeration order — the matched list is the filter of the
enumerated list, not a re-sort. -/
theorem c8_sequential_enumeration_order (p : PureApi)
    (owner pkgType userType : String) (versions packages : List String)
    (hu : p.userType = .ok userType)
    (h : packages.all (pkgRecovered p versions) = true) :
    ∃ evs,
      deletePackageVersions p.toApi owner pkgType packages versions ()
        = (.ok (), (), Event.getUserCall owner :: ownerTypeLog userType :: evs)
      ∧ listingCalls evs = packages
      ∧ versionDeleteCalls evs
          = packages.flatMap
              (fun pkg => (matchedOf p versions pkg).map (fun v => (pkg, v.id)))
      ∧ (∀ pkg vs, p.list pkg = .ok vs →
          matchedOf p versions pkg
            = vs.filter (fun version => versions.contains version.name)) := by
  obtain ⟨evs, hrun, g1, g2, g3, g4⟩ :=
    deletePackageVersions_recovered p owner pkgType userType versions packages hu h
  refine ⟨evs, hrun, g1, g2, ?_⟩
  intro pkg vs hl
  rw [matchedOf, hl]
  rfl

/-- Stateless oracle with two packages and interleaved matches, for the C8
witness. -/
def apiW8 : PureApi :=
  { userType := .ok "User"
    list := fun pkg =>
      if pkg == "libA" then .ok [⟨1, "1.0.0"⟩, ⟨2, "2.0.0"⟩, ⟨3, "3.0.0"⟩]
      else .ok [⟨4, "3.0.0"⟩, ⟨5, "1.0.0"⟩]
    delVer := fun _ _ => .ok ()
    delPkg := fun _ => .ok () }

theorem c8_witness :
    ∃ evs,
      deletePackageVersions apiW8.toApi "owner" "npm" ["libA", "libB"]
          ["1.0.0", "3.0.0"] ()
        = (.ok (), (), Event.getUserCall "owner" :: ownerTypeLog "User" :: evs)
      ∧ listingCalls evs = ["libA", "libB"]
      ∧ versionDeleteCalls evs
          = ["libA", "libB"].flatMap
              (fun pkg => (matchedOf apiW8 ["1.0.0", "3.0.0"] pkg).map (fun v => (pkg, v.id)))
      ∧ (∀ pkg vs, apiW8.list pkg = .ok vs →
          matchedOf apiW8 ["1.0.0", "3.0.0"] pkg
            = vs.filter (fun version => ["1.0.0", "3.0.0"].contains version.name)) :=
  c8_sequential_enumeration_order apiW8 "owner" "npm" "User" ["1.0.0", "3.0.0"]
    ["libA", "libB"] rfl (by decide)

/-- The processing of one package reads the requested version labels only
through membership, so two requested lists that agree on membership
(duplicates, reordering) produce identical processing. -/
theorem processPackage_contains_congr {σ : Type} (api : Api σ) (org : Bool)
    (owner pkgType pkg : String) (req1 req2 : List String) (s : σ)
    (hc : ∀ x, req1.contains x = req2.contains x) :
    processPackage api org owner pkgType req1 pkg s
      = processPackage api org owner pkgType req2 pkg s := by
  have hmat : ∀ vs : List Version, matchedVersions req1 vs = matchedVersions req2 vs := by
    intro vs
    unfold matchedVersions
    apply List.filter_congr
    intro v _
    rw [hc]
  rcases hl : api.listVersions org owner pkgType pkg s with ⟨rl, s₁⟩
  cases rl with
  | error e =>
    simp only [processPackage, hl]
  | ok vs =>
    simp only [processPackage, hl, hmat vs]


/-! ### The honest registry: lookup and update interaction -/

theorem lookup_removeVersion (r : Registry) (pkg q : String) (id : Nat) :
    (r.removeVersion pkg id).lookup q
      = if q = pkg then (r.lookup q).map (fun vs => vs.filter (fun v => v.id != id))
        else r.lookup q := rfl

theorem lookup_removePackage (r : Registry) (pkg q : String) :
    (r.removePackage pkg).lookup q
      = if q = pkg then none else r.lookup q := rfl

/-- A registry is clean for a package when the package is absent or none of
its remaining versions match the requested labels. -/
def cleanFor (versions : List String) (pkg : String) (R : Registry) : Prop :=
  ∀ vs, R.lookup pkg = some vs → matchedVersions versions vs = []

/-- Running the version loop against the honest registry always completes
normally (every outcome the registry can produce is recovered), touches no
other package, only ever removes versions of this package, and, when no
refusal was hit, leaves no version whose id was in the worklist. -/
theorem deleteLoop_registry (kind : String) (org : Bool) (owner pkgType pkg : String)
    (toDelete : List Version) (flag : Bool) (R : Registry) :
    ∃ flag2 R2 evs,
      deleteLoop (registryApi kind) org owner pkgType pkg toDelete flag R
        = (.ok flag2, R2, evs)
      ∧ (flag = true → flag2 = true)
      ∧ (∀ q, q ≠ pkg → R2.lookup q = R.lookup q)
      ∧ (∀ v vs2, R2.lookup pkg = some vs2 → v ∈ vs2 →
          ∃ vs, R.lookup pkg = some vs ∧ v ∈ vs)
      ∧ (flag2 = false → ∀ v vs2, R2.lookup pkg = some vs2 → v ∈ vs2 →
          ¬ v.id ∈ toDelete.map (fun w => w.id)) := by
  induction toDelete generalizing flag R with
  | nil =>
    exact ⟨flag, R, [], by simp [deleteLoop], fun h => h, fun q _ => rfl,
      fun v vs2 h hv => ⟨vs2, h, hv⟩, fun _ v vs2 _ _ => by simp⟩
  | cons w rest ih =>
    cases hlk : R.lookup pkg with
    | none =>
      have hd : (registryApi kind).deleteVersion org owner pkgType pkg w.id R
          = (.error (.request 404 "Not Found"), R) := by
        simp [registryApi, hlk]
      obtain ⟨flag2, R2, evs, hrun, hflag, hother, hshrink, hlast⟩ := ih flag R
      rw [hlk] at hshrink
      refine ⟨flag2, R2, _, deleteLoop_cons_notFound hd rfl hrun, hflag, hother, hshrink, ?_⟩
      intro hf v vs2 h2 hv
      obtain ⟨vs, hvs, -⟩ := hshrink v vs2 h2 hv
      exact Option.noConfusion hvs
    | some vs =>
      cases hany : vs.any (fun x => x.id == w.id) with
      | false =>
        have hd : (registryApi kind).deleteVersion org owner pkgType pkg w.id R
            = (.error (.request 404 "Not Found"), R) := by
          simp only [registryApi, hlk, hany]
          rfl
        obtain ⟨flag2, R2, evs, hrun, hflag, hother, hshrink, hlast⟩ := ih flag R
        rw [hlk] at hshrink
        refine ⟨flag2, R2, _, deleteLoop_cons_notFound hd rfl hrun, hflag, hother, hshrink, ?_⟩
        intro hf v vs2 h2 hv
        obtain ⟨vs0, hvs0, hvmem⟩ := hshrink v vs2 h2 hv
        injection hvs0 with hvs0
        subst hvs0
        have hne : v.id ≠ w.id := by
          have := List.any_eq_false.mp hany v hvmem
          simpa using this
        simp only [List.map_cons, List.mem_cons]
        rintro (hc | hc)
        · exact hne hc
        · exact hlast hf v vs2 h2 hv (by simpa using hc)
      | true =>
        cases hlen : vs.length == 1 with
        | true =>
          have hd : (registryApi kind).deleteVersion org owner pkgType pkg w.id R
              = (.error (.request 400 "Cannot delete the last version of a package"), R) := by
            simp only [registryApi, hlk, hany, hlen]
            rfl
          obtain ⟨flag2, R2, evs, hrun, hflag, hother, hshrink, hlast⟩ := ih true R
          rw [hlk] at hshrink
          have hflag2 : flag2 = true := hflag rfl
          refine ⟨flag2, R2, _,
            deleteLoop_cons_refusal hd rfl (by decide) hrun, fun _ => hflag2, hother,
            hshrink, ?_⟩
          intro hf
          rw [hflag2] at hf
          exact absurd hf (by simp)
        | false =>
          have hd : (registryApi kind).deleteVersion org owner pkgType pkg w.id R
              = (.ok (), R.removeVersion pkg w.id) := by
            simp only [registryApi, hlk, hany, hlen]
            rfl
          obtain ⟨flag2, R2, evs, hrun, hflag, hother, hshrink, hlast⟩ :=
            ih flag (R.removeVersion pkg w.id)
          refine ⟨flag2, R2, _, deleteLoop_cons_ok hd hrun, hflag, ?_, ?_, ?_⟩
          · intro q hq
            rw [hother q hq, lookup_removeVersion, if_neg hq]
          · intro v vs2 h2 hv
            obtain ⟨vs1, hvs1, hvmem⟩ := hshrink v vs2 h2 hv
            rw [lookup_removeVersion, if_pos rfl, hlk] at hvs1
            injection hvs1 with hvs1
            subst hvs1
            exact ⟨vs, rfl, (List.mem_filter.mp hvmem).1⟩
          · intro hf v vs2 h2 hv
            have hrest := hlast hf v vs2 h2 hv
            obtain ⟨vs1, hvs1, hvmem⟩ := hshrink v vs2 h2 hv
            rw [lookup_removeVersion, if_pos rfl, hlk] at hvs1
            injection hvs1 with hvs1
            subst hvs1
            have hne : v.id ≠ w.id := by
              have := (List.mem_filter.mp hvmem).2
              simpa [bne] using this
            simp only [List.map_cons, List.mem_cons]
            rintro (hc | hc)
            · exact hne hc
            · exact hrest (by simpa using hc)


/-- Processing one package against the honest registry always completes
normally, touches no other package, and leaves the registry clean for the
package: it is either gone or has no remaining matching version. -/
theorem processPackage_registry (kind : String) (org : Bool) (owner pkgType : String)
    (versions : List String) (pkg : String) (R : Registry) :
    ∃ R2 evs,
      processPackage (registryApi kind) org owner pkgType versions pkg R
        = (.ok (), R2, evs)
      ∧ (∀ q, q ≠ pkg → R2.lookup q = R.lookup q)
      ∧ cleanFor versions pkg R2 := by
  cases hlk : R.lookup pkg with
  | none =>
    have hl : (registryApi kind).listVersions org owner pkgType pkg R
        = (.error (.request 404 "Not Found"), R) := by
      simp [registryApi, hlk]
    refine ⟨R, _, processPackage_list_notFound hl rfl, fun q _ => rfl, ?_⟩
    intro vs2 h2
    rw [hlk] at h2
    exact Option.noConfusion h2
  | some vs =>
    have hl : (registryApi kind).listVersions org owner pkgType pkg R = (.ok vs, R) := by
      simp [registryApi, hlk]
    by_cases hmat : matchedVersions versions vs = []
    · refine ⟨R, _, processPackage_noMatch hl hmat, fun q _ => rfl, ?_⟩
      intro vs2 h2
      rw [hlk] at h2
      injection h2 with h2
      subst h2
      exact hmat
    · have hne : ((matchedVersions versions vs).length == 0) = false := by
        simp [List.length_eq_zero, hmat]
      obtain ⟨flag2, R2, evs, hloop, hflag, hother, hshrink, hlast⟩ :=
        deleteLoop_registry kind org owner pkgType pkg (matchedVersions versions vs) false R
      cases flag2 with
      | false =>
        refine ⟨R2, _, processPackage_loopOk_noFlag hl hne hloop, hother, ?_⟩
        intro vs2 h2
        unfold matchedVersions
        rw [List.filter_eq_nil_iff]
        intro v hv hcontra
        have hvvs : v ∈ vs := by
          obtain ⟨vs0, hvs0, hvmem⟩ := hshrink v vs2 h2 hv
          rw [hlk] at hvs0
          injection hvs0 with hvs0
          subst hvs0
          exact hvmem
        have hvmatched : v ∈ matchedVersions versions vs :=
          List.mem_filter.mpr ⟨hvvs, hcontra⟩
        exact hlast rfl v vs2 h2 hv (List.mem_map.mpr ⟨v, hvmatched, rfl⟩)
      | true =>
        cases hlk2 : R2.lookup pkg with
        | none =>
          have hp : (registryApi kind).deletePackage org owner pkgType pkg R2
              = (.error (.request 404 "Not Found"), R2) := by
            simp [registryApi, hlk2]
          refine ⟨R2, _, processPackage_flag_pkgNotFound hl hne hloop hp rfl, hother, ?_⟩
          intro vs2 h2
          rw [hlk2] at h2
          exact Option.noConfusion h2
        | some vs2 =>
          have hp : (registryApi kind).deletePackage org owner pkgType pkg R2
              = (.ok (), R2.removePackage pkg) := by
            simp [registryApi, hlk2]
          refine ⟨R2.removePackage pkg, _,
            processPackage_flag_pkgOk hl hne hloop hp, ?_, ?_⟩
          · intro q hq
            rw [lookup_removePackage, if_neg hq]
            exact hother q hq
          · intro vs3 h3
            rw [lookup_removePackage, if_pos rfl] at h3
            exact Option.noConfusion h3

/-- Processing the whole package list against the honest registry completes
normally, preserves cleanliness, and leaves the registry clean for every
requested package. -/
theorem processPackages_registry (kind : String) (org : Bool) (owner pkgType : String)
    (versions : List String) (packages : List String) (R : Registry) :
    ∃ R2 evs,
      processPackages (registryApi kind) org owner pkgType versions packages R
        = (.ok (), R2, evs)
      ∧ (∀ q, cleanFor versions q R → cleanFor versions q R2)
      ∧ (∀ pkg ∈ packages, cleanFor versions pkg R2) := by
  induction packages generalizing R with
  | nil =>
    exact ⟨R, [], rfl, fun q h => h, fun pkg h => absurd h (List.not_mem_nil pkg)⟩
  | cons pkg rest ih =>
    obtain ⟨R1, evs1, hp, hother1, hclean1⟩ :=
      processPackage_registry kind org owner pkgType versions pkg R
    obtain ⟨R2, evs2, hrun, hpres, hclean2⟩ := ih R1
    have hpres1 : ∀ q, cleanFor versions q R → cleanFor versions q R1 := by
      intro q hq
      by_cases hqp : q = pkg
      · subst hqp
        exact hclean1
      · intro vs2 h2
        rw [hother1 q hqp] at h2
        exact hq vs2 h2
    refine ⟨R2, evs1 ++ evs2, processPackages_cons_ok hp hrun, ?_, ?_⟩
    · intro q hq
      exact hpres q (hpres1 q hq)
    · intro p hm
      rcases List.mem_cons.mp hm with hm | hm
      · subst hm
        exact hpres p hclean1
      · exact hclean2 p hm

/-- Processing a package the registry is clean for issues no deletion call
at all and leaves the registry untouched. -/
theorem processPackage_registry_clean (kind : String) (org : Bool)
    (owner pkgType : String) (versions : List String) (pkg : String) (R : Registry)
    (h : cleanFor versions pkg R) :
    ∃ evs,
      processPackage (registryApi kind) org owner pkgType versions pkg R
        = (.ok (), R, evs)
      ∧ versionDeleteCalls evs = []
      ∧ packageDeleteCalls evs = [] := by
  cases hlk : R.lookup pkg with
  | none =>
    have hl : (registryApi kind).listVersions org owner pkgType pkg R
        = (.error (.request 404 "Not Found"), R) := by
      simp [registryApi, hlk]
    exact ⟨_, processPackage_list_notFound hl rfl,
      by simp [pkgNotFoundWarnLog], by simp [pkgNotFoundWarnLog]⟩
  | some vs =>
    have hl : (registryApi kind).listVersions org owner pkgType pkg R = (.ok vs, R) := by
      simp [registryApi, hlk]
    have hmat : matchedVersions versions vs = [] := h vs hlk
    exact ⟨_, processPackage_noMatch hl hmat,
      by simp [noMatchingLog], by simp [noMatchingLog]⟩

/-- Processing a package list the registry is clean for issues no deletion
call at all. -/
theorem processPackages_registry_clean (kind : String) (org : Bool)
    (owner pkgType : String) (versions : List String) (packages : List String)
    (R : Registry)
    (h : ∀ pkg ∈ packages, cleanFor versions pkg R) :
    ∃ evs,
      processPackages (registryApi kind) org owner pkgType versions packages R
        = (.ok (), R, evs)
      ∧ versionDeleteCalls evs = []
      ∧ packageDeleteCalls evs = [] := by
  induction packages with
  | nil => exact ⟨[], rfl, rfl, rfl⟩
  | cons pkg rest ih =>
    obtain ⟨evs1, hp, h1, h2⟩ :=
      processPackage_registry_clean kind org owner pkgType versions pkg R
        (h pkg (List.mem_cons_self _ _))
    obtain ⟨evs2, hrun, g1, g2⟩ := ih (fun q hq => h q (List.mem_cons_of_mem _ hq))
    exact ⟨evs1 ++ evs2, processPackages_cons_ok hp hrun,
      by simp [h1, g1], by simp [h2, g2]⟩


/-- C6: (1) under recovered outcomes, exactly one deletion call is issued per
matched version, in order — no duplicates, no skips; (2) the requested
labels are read only through membership, so duplicate requested labels
change nothing; (3) idempotence against the honest registry: a first run
always completes normally, and a second run with the same inputs over the
state the first run left behind issues zero version-deletion calls and zero
package-deletion calls. -/
theorem c6_exactly_once_and_idempotent :
    (∀ (p : PureApi) (org : Bool) (owner pkgType pkg : String)
        (versions : List String) (vs : List Version),
        p.list pkg = .ok vs →
        (∀ v ∈ matchedVersions versions vs, recoveredDelete (p.delVer pkg v.id) = true) →
        recoveredPkgDelete (p.delPkg pkg) = true →
        ∃ evs, processPackage p.toApi org owner pkgType versions pkg () = (.ok (), (), evs)
          ∧ versionDeleteCalls evs
              = (matchedVersions versions vs).map (fun v => (pkg, v.id)))
    ∧ (∀ (σ : Type) (api : Api σ) (org : Bool) (owner pkgType pkg : String)
        (req1 req2 : List String) (s : σ),
        (∀ x, req1.contains x = req2.contains x) →
        processPackage api org owner pkgType req1 pkg s
          = processPackage api org owner pkgType req2 pkg s)
    ∧ (∀ (kind owner pkgType : String) (packages versions : List String)
        (R R2 : Registry) (r : Except JsError Unit) (evs : List Event),
        deletePackageVersions (registryApi kind) owner pkgType packages versions R
          = (r, R2, evs) →
        r = .ok ()
        ∧ versionDeleteCalls
            (deletePackageVersions (registryApi kind) owner pkgType packages versions
              R2).2.2 = []
        ∧ packageDeleteCalls
            (deletePackageVersions (registryApi kind) owner pkgType packages versions
              R2).2.2 = []) := by
  refine ⟨?_, ?_, ?_⟩
  · intro p org owner pkgType pkg versions vs hl hrec hpkg
    obtain ⟨evs₁, evs₂, hp, a1, a2, a3, a4, a5, a6, a7⟩ :=
      processPackage_recovered p org owner pkgType pkg versions vs hl hrec hpkg
    exact ⟨_, hp, by simp [a1, a3]⟩
  · intro σ api org owner pkgType pkg req1 req2 s hc
    exact processPackage_contains_congr api org owner pkgType pkg req1 req2 s hc
  · intro kind owner pkgType packages versions R R2 r evs heq
    have hu : (registryApi kind).getUserType owner R = (.ok kind, R) := rfl
    obtain ⟨R2a, evsa, hrun, hpres, hclean⟩ :=
      processPackages_registry kind (kind == "Organization") owner pkgType versions
        packages R
    have hfull := deletePackageVersions_userOk hu hrun
    rw [hfull] at heq
    have hr : r = .ok () := by
      have := congrArg Prod.fst heq
      simpa using this.symm
    have hR2 : R2 = R2a := by
      have := congrArg (fun t => t.2.1) heq
      simpa using this.symm
    subst hR2
    obtain ⟨evs2, hrun2, g1, g2⟩ :=
      processPackages_registry_clean kind (kind == "Organization") owner pkgType versions
        packages R2 hclean
    have hu2 : (registryApi kind).getUserType owner R2 = (.ok kind, R2) := rfl
    have hfull2 := deletePackageVersions_userOk hu2 hrun2
    rw [hfull2]
    exact ⟨hr, by simp [ownerTypeLog, g1], by simp [ownerTypeLog, g2]⟩

/-- Stateless oracle for the first two C6 witness conjuncts. -/
def apiW6 : PureApi :=
  { userType := .ok "User"
    list := fun _ => .ok [⟨1, "1.0.0"⟩, ⟨2, "2.0.0"⟩]
    delVer := fun _ _ => .ok ()
    delPkg := fun _ => .ok () }

/-- Modelled from the spec: a concrete honest-registry state for the C6
witness. -/
def regW6 : Registry :=
  ⟨fun pkg =>
    if pkg == "libA" then some [⟨1, "1.0.0"⟩, ⟨2, "2.0.0"⟩]
    else if pkg == "libB" then some [⟨3, "1.0.0"⟩]
    else none⟩

theorem c6_witness :
    (∃ evs, processPackage apiW6.toApi false "owner" "npm" ["1.0.0"] "libA" ()
        = (.ok (), (), evs)
      ∧ versionDeleteCalls evs
          = (matchedVersions ["1.0.0"] [⟨1, "1.0.0"⟩, ⟨2, "2.0.0"⟩]).map
              (fun v => ("libA", v.id)))
    ∧ (processPackage apiW6.toApi false "owner" "npm" ["1.0.0", "1.0.0"] "libA" ()
        = processPackage apiW6.toApi false "owner" "npm" ["1.0.0"] "libA" ())
    ∧ ((deletePackageVersions (registryApi "User") "owner" "npm" ["libA", "libB"]
          ["1.0.0"] regW6).1 = .ok ()
      ∧ versionDeleteCalls
          (deletePackageVersions (registryApi "User") "owner" "npm" ["libA", "libB"]
            ["1.0.0"]
            (deletePackageVersions (registryApi "User") "owner" "npm" ["libA", "libB"]
              ["1.0.0"] regW6).2.1).2.2 = []
      ∧ packageDeleteCalls
          (deletePackageVersions (registryApi "User") "owner" "npm" ["libA", "libB"]
            ["1.0.0"]
            (deletePackageVersions (registryApi "User") "owner" "npm" ["libA", "libB"]
              ["1.0.0"] regW6).2.1).2.2 = []) :=
  ⟨c6_exactly_once_and_idempotent.1 apiW6 false "owner" "npm" "libA" ["1.0.0"]
      [⟨1, "1.0.0"⟩, ⟨2, "2.0.0"⟩] rfl (by decide) rfl,
    c6_exactly_once_and_idempotent.2.1 Unit apiW6.toApi false "owner" "npm" "libA"
      ["1.0.0", "1.0.0"] ["1.0.0"] ()
      (fun x => by cases h : x == "1.0.0" <;> simp [List.contains, List.elem, h]),
    c6_exactly_once_and_idempotent.2.2 "User" "owner" "npm" ["libA", "libB"] ["1.0.0"]
      regW6
      (deletePackageVersions (registryApi "User") "owner" "npm" ["libA", "libB"]
        ["1.0.0"] regW6).2.1
      (deletePackageVersions (registryApi "User") "owner" "npm" ["libA", "libB"]
        ["1.0.0"] regW6).1
      (deletePackageVersions (registryApi "User") "owner" "npm" ["libA", "libB"]
        ["1.0.0"] regW6).2.2
      rfl⟩


end DeletePkg
